import Mathlib

/-!
Verification of the session lifecycle engine of the annotation backend
(`annotation-backend/main.py`).

The filesystem is modelled as a finite map from segment paths to file
contents together with a finite set of directory paths.  Paths handed to
the operating system are resolved lexically (".." pops a segment, as the
kernel does for existing directory chains).  Python `pathlib` joining is
modelled by `pjoin`: a right operand starting with "/" replaces the path,
"." segments and empty segments are dropped, ".." is kept as a segment.
Endpoint handlers return the (possibly mutated) filesystem together with
either a response or an HTTP-style error.
-/

abbrev PathSegs := List String

/-- HTTP-style error: status code and detail message, as raised by the
endpoints via HTTPException (or surfaced as 500 for uncaught OS errors). -/
structure HErr where
  status : Nat
  detail : String
deriving DecidableEq

/-- Splits a character list at a separator, like Python `str.split`. -/
def splitCharsAux (sep : Char) : List Char → List Char → List (List Char)
  | cur, [] => [cur.reverse]
  | cur, c :: cs =>
    if c = sep then cur.reverse :: splitCharsAux sep [] cs
    else splitCharsAux sep (c :: cur) cs

/-- Python `s.split("/")`. -/
def pySplit (s : String) : List String :=
  (splitCharsAux '/' [] s.data).map String.mk

/-- Python `s.split("_")`. -/
def pySplitU (s : String) : List String :=
  (splitCharsAux '_' [] s.data).map String.mk

/-- Python `s.startswith(pre)`. -/
def startsW (pre s : String) : Bool := pre.data.isPrefixOf s.data

/-- Python code-point comparison `s <= t` (used by `sorted`). -/
def strLe : List Char → List Char → Bool
  | [], _ => true
  | _ :: _, [] => false
  | a :: as, b :: bs => if a < b then true else if b < a then false else strLe as bs

/-- Segments pathlib keeps when parsing a string: empty and "." segments
are dropped, ".." is kept. -/
def segKeep (s : String) : Bool := s != "" && s != "."

def splitSegs (s : String) : List String := (pySplit s).filter segKeep

/-- Python `pathlib` `/` operator: an absolute right operand replaces the
path, otherwise its segments are appended. -/
def pjoin (p : PathSegs) (s : String) : PathSegs :=
  if s.data.headD ' ' = '/' then splitSegs s else p ++ splitSegs s

/-- Lexical resolution of ".." segments, as the kernel resolves a path
whose directory chain exists: ".." pops the previous segment (at the root
it stays at the root). -/
def resolveAux : PathSegs → PathSegs → PathSegs
  | acc, [] => acc
  | acc, s :: rest =>
    if s = ".." then resolveAux acc.dropLast rest else resolveAux (acc ++ [s]) rest

def resolve (p : PathSegs) : PathSegs := resolveAux [] p

/-- The filesystem: files (path, content) and the set of directories. -/
structure FS where
  files : List (PathSegs × String)
  dirs : List PathSegs
deriving DecidableEq

def flookup : List (PathSegs × String) → PathSegs → Option String
  | [], _ => none
  | e :: es, p => if e.1 = p then some e.2 else flookup es p

/-- Content of the file stored at a (canonical) path, if any. -/
def FS.file? (fs : FS) (p : PathSegs) : Option String := flookup fs.files p

/-- Whether a (canonical) path is a directory. -/
def FS.isDir (fs : FS) (p : PathSegs) : Bool := fs.dirs.contains p

/-- Python `Path.exists()`: the operating system resolves the path. -/
def FS.pexists (fs : FS) (p : PathSegs) : Bool :=
  (fs.file? (resolve p)).isSome || fs.isDir (resolve p)

/-- Writing a file (`open(path, "w")` / `cv2.imwrite`). -/
def FS.write (fs : FS) (p : PathSegs) (c : String) : FS :=
  { fs with files := (resolve p, c) :: fs.files.filter (fun e => e.1 != resolve p) }

/-- `Path.unlink()` on a file. -/
def FS.unlink (fs : FS) (p : PathSegs) : FS :=
  { fs with files := fs.files.filter (fun e => e.1 != resolve p) }

/-- All prefixes of a path, from the root to the path itself. -/
def ancestors : PathSegs → List PathSegs
  | [] => [[]]
  | s :: rest => [] :: (ancestors rest).map (fun q => s :: q)

/-- `Path.mkdir(parents=True, exist_ok=True)`: creates the whole chain;
raises (modelled as `none`) when a file blocks any component. -/
def FS.mkdirp (fs : FS) (p : PathSegs) : Option FS :=
  if (ancestors (resolve p)).any (fun q => (fs.file? q).isSome) then none
  else some { fs with
    dirs := (ancestors (resolve p)).filter (fun q => !fs.dirs.contains q) ++ fs.dirs }

/-- Rename step for one file entry: entries under `src` are remapped below
`dst`, a plain file previously stored at `dst` is dropped (replaced), other
entries are kept. -/
def renF (src dst : PathSegs) (e : PathSegs × String) : Option (PathSegs × String) :=
  if src.isPrefixOf e.1 then some (dst ++ e.1.drop src.length, e.2)
  else if e.1 = dst then none
  else some e

/-- Rename step for one directory entry. -/
def renD (src dst : PathSegs) (d : PathSegs) : Option PathSegs :=
  if src.isPrefixOf d then some (dst ++ d.drop src.length)
  else if d = dst then none
  else some d

/-- Raw rename of a subtree rooted at `src` (already resolved) to `dst`.
Callers perform the checks `os.rename` or `shutil.move` would make before
using it. -/
def FS.rename (fs : FS) (src dst : PathSegs) : FS :=
  { files := fs.files.filterMap (renF src dst),
    dirs := fs.dirs.filterMap (renD src dst) }

/-- `os.rename(src, dst)` with its failure modes: missing source, moving a
directory into itself, missing destination parent, directory onto a file,
file onto a directory. -/
def osRename (fs : FS) (src dst : PathSegs) : Option FS :=
  let s := resolve src
  let d := resolve dst
  if !fs.pexists src then none
  else if s ≠ d ∧ s.isPrefixOf d then none
  else if !fs.isDir d.dropLast then none
  else if fs.isDir s && (fs.file? d).isSome then none
  else if !fs.isDir s && fs.isDir d then none
  else some (fs.rename s d)

/-- `shutil.move(src, dst)`: if `dst` is an existing directory the source
is moved inside it (error if that name is taken); otherwise it is renamed
onto `dst`, which overwrites a plain file but fails for a directory source
onto an existing file, a move into itself, or a missing parent. -/
def shutilMove (fs : FS) (src dst : PathSegs) : Option FS :=
  let s := resolve src
  let d := resolve dst
  let realDst := if fs.isDir d then d ++ [s.getLastD ""] else d
  if fs.isDir d && fs.pexists realDst then none
  else if !fs.pexists s then none
  else if s ≠ realDst ∧ s.isPrefixOf realDst then none
  else if fs.isDir s && (fs.file? realDst).isSome then none
  else if !fs.isDir realDst.dropLast then none
  else some (fs.rename s realDst)

/-- `shutil.rmtree(p, ignore_errors=True)`. -/
def FS.rmtree (fs : FS) (p : PathSegs) : FS :=
  { files := fs.files.filter (fun e => !(resolve p).isPrefixOf e.1),
    dirs := fs.dirs.filter (fun d => !(resolve p).isPrefixOf d) }

def childName (r q : PathSegs) : Option String :=
  if r.isPrefixOf q ∧ q.length = r.length + 1 then q.getLast? else none

/-- Names of the direct children of a directory (`Path.iterdir()`). -/
def FS.children (fs : FS) (p : PathSegs) : List String :=
  ((fs.dirs.filterMap (childName (resolve p))) ++
    (fs.files.filterMap (fun e => childName (resolve p) e.1))).dedup

/-- Insertion into a string list sorted in nondecreasing order. -/
def insSorted (x : String) : List String → List String
  | [] => [x]
  | y :: ys => if strLe x.data y.data then x :: y :: ys else y :: insSorted x ys

/-- Python `sorted` on the names produced by `iterdir`. -/
def sortStrs (l : List String) : List String := l.foldr insSorted []

-- Fixed directory layout of the repository (`main.py`, path configuration).
def TEMP_ROOT : PathSegs := ["annotation-frontend", "temp"]
def UPLOADS_DIR : PathSegs := ["annotation-backend", "uploads"]
def ANNOTATIONS_DIR : PathSegs := ["annotation-backend", "annotations"]
def PERSONS_DB : PathSegs := ["annotation-backend", "persons"]

/-- A "plain" path segment: nonempty, no slash, not "." or "..".  Real
session ids (uuid hex) and group/file names written by the pipeline are
plain. -/
def plainSeg (s : String) : Bool :=
  !s.data.contains '/' && s != "" && s != "." && s != ".."

/-- Falsy test on an optional JSON string field (`if not x` in the
handlers): missing or empty. -/
def falsy : Option String → Bool
  | none => true
  | some s => s == ""

/-- Decimal digit character. -/
def digitCh (n : Nat) : Char :=
  if n = 0 then '0' else if n = 1 then '1' else if n = 2 then '2'
  else if n = 3 then '3' else if n = 4 then '4' else if n = 5 then '5'
  else if n = 6 then '6' else if n = 7 then '7' else if n = 8 then '8' else '9'

/-- Decimal digits, most significant first, with structural fuel (any
fuel at least the number of digits gives the decimal form). -/
def natDigitsF : Nat → Nat → List Char
  | 0, n => [digitCh n]
  | fuel + 1, n =>
    if n < 10 then [digitCh n] else natDigitsF fuel (n / 10) ++ [digitCh (n % 10)]

/-- Decimal digits of a natural number, most significant first
(Python `str(n)` for a nonnegative int). -/
def natDigits (n : Nat) : List Char := natDigitsF n n

def natStr (n : Nat) : String := String.mk (natDigits n)

/-- Python `str` on an int. -/
def intStr (i : Int) : String :=
  if i < 0 then "-" ++ natStr i.natAbs else natStr i.toNat

def isDigitCh (c : Char) : Bool := '0' ≤ c && c ≤ '9'

def digitsVal (cs : List Char) : Nat :=
  cs.foldl (fun a c => a * 10 + (c.toNat - 48)) 0

def pyStrip (cs : List Char) : List Char :=
  ((cs.dropWhile Char.isWhitespace).reverse.dropWhile Char.isWhitespace).reverse

/-- Python `int(s)` on the strings produced by `split("_")` (which never
contain digit-group underscores): optional surrounding whitespace, an
optional sign, then decimal digits; anything else raises (`none`). -/
def pyInt? (s : String) : Option Int :=
  match pyStrip s.data with
  | [] => none
  | c :: rest =>
    if c = '-' then
      if rest ≠ [] ∧ rest.all isDigitCh then some (-(digitsVal rest : Int)) else none
    else if c = '+' then
      if rest ≠ [] ∧ rest.all isDigitCh then some (digitsVal rest : Int) else none
    else if (c :: rest).all isDigitCh then some (digitsVal (c :: rest) : Int)
    else none

/-- `os.path.splitext`: splits at the last dot provided some earlier
character of the name is not a dot (leading dots never start an
extension). -/
def extSplitIdx (cs : List Char) : Option Nat :=
  ((List.range cs.length).filter
    (fun i => cs.getD i ' ' = '.' && (cs.take i).any (fun c => c ≠ '.'))).getLast?

def splitext (s : String) : String × String :=
  match extSplitIdx s.data with
  | none => (s, "")
  | some i => (String.mk (s.data.take i), String.mk (s.data.drop i))

/-- String form of an absolute path, as `str(Path(...))` produces it. -/
def pathStr (p : PathSegs) : String := p.foldl (fun a s => a ++ "/" ++ s) ""

/-!  Endpoint handlers (`main.py`).  Each handler takes the filesystem and
its JSON body fields (`Option String`, `none` for a missing key) and
returns the possibly mutated filesystem with a response or an error. -/

/-- `safe_temp_session_path`: resolves `TEMP_ROOT / session_id` and rejects
it unless its string form starts with the temp root's string form.  Note:
this helper is defined in the source but never called by any endpoint. -/
def safe_temp_session_path (session_id : String) : Except HErr PathSegs :=
  let path := resolve (pjoin TEMP_ROOT session_id)
  if startsW (pathStr (resolve TEMP_ROOT)) (pathStr path) then .ok path
  else .error ⟨400, "Invalid session path"⟩

/-- `list_session_persons`: mapping group folder to sorted image URLs. -/
def list_session_persons (fs : FS) (session_id : String) :
    Except HErr (List (String × List String)) :=
  let session_folder := pjoin TEMP_ROOT session_id
  if !fs.pexists session_folder then .error ⟨404, "Session not found"⟩
  else if !fs.isDir (resolve session_folder) then .error ⟨500, "NotADirectoryError"⟩
  else
    let sess := resolve session_folder
    .ok ((sortStrs (fs.children sess)).filterMap (fun g =>
      if fs.isDir (sess ++ [g]) then
        some (g, (sortStrs (fs.children (sess ++ [g]))).filterMap (fun f =>
          if (fs.file? (sess ++ [g, f])).isSome then
            some ("/temp/" ++ session_id ++ "/" ++ g ++ "/" ++ f)
          else none))
      else none))

/-- Python `name.strip().replace(" ", "_")`: strip surrounding whitespace,
then turn each space character into an underscore. -/
def pySanitize (name : String) : String :=
  String.mk ((pyStrip name.data).map (fun c => if c = ' ' then '_' else c))

/-- The auto-naming scan of `add_person`: existing `person_*` directories
are scanned, the numeric field after the first underscore is parsed with
`int(...)` (failures skipped), and the name `person_<max+1>` is chosen. -/
def autoName (fs : FS) (session_dir : PathSegs) : String :=
  let existing := (fs.children session_dir).filter
    (fun nm => fs.isDir (resolve session_dir ++ [nm]) && startsW "person_" nm)
  let idx : Int := existing.foldl (fun idx e =>
    match pyInt? ((pySplitU e).getD 1 "") with
    | some n => max idx (n + 1)
    | none => idx) 0
  "person_" ++ intStr idx

/-- `POST /add_person/`. -/
def add_person (fs : FS) (session_id name : Option String) : FS × Except HErr String :=
  if falsy session_id then (fs, .error ⟨400, "session_id required"⟩)
  else
    let session_dir := pjoin TEMP_ROOT (session_id.getD "")
    if !fs.pexists session_dir then (fs, .error ⟨404, "Session not found"⟩)
    else
      let new_name := if !falsy name then pySanitize (name.getD "") else autoName fs session_dir
      let new_folder := pjoin session_dir new_name
      if fs.pexists new_folder then (fs, .error ⟨400, "Person folder exists"⟩)
      else
        match fs.mkdirp new_folder with
        | none => (fs, .error ⟨500, "OSError"⟩)
        | some fs2 => (fs2, .ok new_name)

/-- `POST /move_image/`.  `sfx` is the random hex suffix `uuid4().hex[:6]`
drawn when the destination filename collides. -/
def move_image (fs : FS) (src dest_person : Option String) (sfx : String) :
    FS × Except HErr String :=
  if falsy src || falsy dest_person then
    (fs, .error ⟨400, "src and dest_person required"⟩)
  else
    let s := src.getD ""
    let dp := dest_person.getD ""
    if !startsW "/temp/" s then (fs, .error ⟨400, "Only /temp/ paths supported"⟩)
    else
      let parts := pySplit s
      if parts.length < 5 then (fs, .error ⟨400, "Invalid src path"⟩)
      else
        let session_id := parts.getD 2 ""
        let filename := parts.getLastD ""
        let src_fs := pjoin (pjoin (pjoin TEMP_ROOT session_id) (parts.getD 3 "")) filename
        if !fs.pexists src_fs then (fs, .error ⟨404, "Source file not found"⟩)
        else
          let dest_folder_fs := pjoin (pjoin TEMP_ROOT session_id) dp
          match fs.mkdirp dest_folder_fs with
          | none => (fs, .error ⟨500, "OSError"⟩)
          | some fs2 =>
            let dest_fs0 := pjoin dest_folder_fs filename
            let dest_fs :=
              if fs2.pexists dest_fs0 then
                pjoin dest_folder_fs
                  ((splitext filename).1 ++ "_" ++ sfx ++ (splitext filename).2)
              else dest_fs0
            match shutilMove fs2 src_fs dest_fs with
            | none => (fs2, .error ⟨500, "OSError"⟩)
            | some fs3 =>
              (fs3, .ok ("/temp/" ++ session_id ++ "/" ++ dp ++ "/" ++ dest_fs.getLastD ""))

/-- `POST /delete_image/`. -/
def delete_image (fs : FS) (path : Option String) : FS × Except HErr String :=
  if falsy path || !startsW "/temp/" (path.getD "") then
    (fs, .error ⟨400, "Invalid path"⟩)
  else
    let p := path.getD ""
    let parts := pySplit p
    if parts.length < 5 then (fs, .error ⟨400, "Invalid path"⟩)
    else
      let target :=
        pjoin (pjoin (pjoin TEMP_ROOT (parts.getD 2 "")) (parts.getD 3 "")) (parts.getLastD "")
      if !fs.pexists target then (fs, .error ⟨404, "File not found"⟩)
      else if fs.isDir (resolve target) then (fs, .error ⟨500, "IsADirectoryError"⟩)
      else (fs.unlink target, .ok p)

/-- `POST /rename_person/`. -/
def rename_person (fs : FS) (session_id old_name new_name : Option String) :
    FS × Except HErr (String × String) :=
  if falsy session_id || falsy old_name || falsy new_name then
    (fs, .error ⟨400, "Missing parameters"⟩)
  else
    let session_dir := pjoin TEMP_ROOT (session_id.getD "")
    let old_fs := pjoin session_dir (old_name.getD "")
    let new_fs := pjoin session_dir (new_name.getD "")
    if !fs.pexists old_fs then (fs, .error ⟨404, "Old person not found"⟩)
    else if fs.pexists new_fs then (fs, .error ⟨400, "Target name exists"⟩)
    else
      match osRename fs old_fs new_fs with
      | none => (fs, .error ⟨500, "OSError"⟩)
      | some fs2 => (fs2, .ok (old_name.getD "", new_name.getD ""))

/-- The index scan of `confirm_session`: directories of the permanent
store named `database_<m>` yield `m + 1`, starting from 1. -/
def dbNextIdx (fs : FS) : Int :=
  let existing := (fs.children PERSONS_DB).filter (fun nm => fs.isDir (PERSONS_DB ++ [nm]))
  existing.foldl (fun n d =>
    if startsW "database_" d then
      match pyInt? ((pySplitU d).getD 1 "") with
      | some m => max n (m + 1)
      | none => n
    else n) 1

/-- `POST /confirm_session/` (promotion). -/
def confirm_session (fs : FS) (session_id : Option String) : FS × Except HErr String :=
  if falsy session_id then (fs, .error ⟨400, "session_id required"⟩)
  else
    let src := pjoin TEMP_ROOT (session_id.getD "")
    if !fs.pexists src then (fs, .error ⟨404, "Session not found"⟩)
    else
      match fs.mkdirp PERSONS_DB with
      | none => (fs, .error ⟨500, "OSError"⟩)
      | some fs1 =>
        let n := dbNextIdx fs1
        let dest := pjoin PERSONS_DB ("database_" ++ intStr n)
        match shutilMove fs1 src dest with
        | none => (fs1, .error ⟨500, "OSError"⟩)
        | some fs2 => (fs2, .ok ("/persons/database_" ++ intStr n))

/-!  Ingestion pipeline (`upload_video`).  The detection/tracking adapter
is external and is modelled at its interface: a stream of per-frame
outcomes.  A `fatal` item stands for an exception raised by the stream or
by an unguarded statement of the fallback loop; `frameErr` stands for an
exception caught by the per-frame handler of the tracking loop. -/

def CONF_THRES_NUM : Nat := 35
def MIN_BOX_AREA : Int := 25 * 25
def SAMPLE_EVERY_N_FRAMES : Nat := 1

/-- One detection box of the tracking stream: track id, pixel coordinates,
and whether the id/coordinate conversion succeeds (its failure is caught
per box and the box skipped). -/
structure TBox where
  tid : Int
  x1 : Int
  y1 : Int
  x2 : Int
  y2 : Int
  convOk : Bool
deriving DecidableEq

inductive TItem where
  | frame (h w : Int) (boxes : List TBox)
  | noFrame
  | frameErr
  | fatal
deriving DecidableEq

/-- One detection of the per-frame fallback: class id, coordinates, and
whether their conversion succeeds. -/
structure CBox where
  cls : Int
  x1 : Int
  y1 : Int
  x2 : Int
  y2 : Int
  convOk : Bool
deriving DecidableEq

inductive CItem where
  | frame (h w : Int) (dets : List CBox)
  | fatal
deriving DecidableEq

/-- Adapter mode: a tracking stream when `model.track` is available, the
per-frame fallback otherwise. -/
inductive AdMode where
  | tracking (items : List TItem)
  | fallback (items : List CItem)
deriving DecidableEq

/-- The detection adapter as consumed by `upload_video`: `available` is
`model is not None`. -/
structure Adapter where
  available : Bool
  mode : AdMode
deriving DecidableEq

/-- Pipeline state: the filesystem plus a ghost log of every file write
performed during the request (used to count snapshot writes). -/
structure PSt where
  fs : FS
  log : List PathSegs
deriving DecidableEq

def PSt.write (st : PSt) (p : PathSegs) (c : String) : PSt :=
  ⟨st.fs.write p c, st.log ++ [resolve p]⟩

abbrev PersonMap := List (String × List String)

/-- `person_map.setdefault(person_key, []).append(web)`. -/
def mapAdd (m : PersonMap) (k v : String) : PersonMap :=
  if m.any (fun e => e.1 == k) then
    m.map (fun e => if e.1 = k then (e.1, e.2 ++ [v]) else e)
  else m ++ [(k, [v])]

/-- Box clamping and filtering, common to both loops: clamp to the frame,
drop empty boxes and boxes below the minimum area. -/
def clampAccept (h w x1 y1 x2 y2 : Int) : Option (Int × Int × Int × Int) :=
  let cx1 := max 0 (min x1 (w - 1))
  let cx2 := max 0 (min x2 (w - 1))
  let cy1 := max 0 (min y1 (h - 1))
  let cy2 := max 0 (min y2 (h - 1))
  if cx2 ≤ cx1 ∨ cy2 ≤ cy1 then none
  else if (cx2 - cx1) * (cy2 - cy1) < MIN_BOX_AREA then none
  else some (cx1, cy1, cx2, cy2)

/-- Placeholder pixel content of a crop (the binary content is opaque to
this core). -/
def cropStr (fi : Nat) (x1 y1 x2 y2 : Int) : String :=
  "crop f" ++ natStr fi ++ " " ++ intStr x1 ++ " " ++ intStr y1 ++ " " ++
    intStr x2 ++ " " ++ intStr y2

def frameStr (fi : Nat) : String := "frame " ++ natStr fi

/-- `save_crop_and_map`: make the group folder, write the crop, append the
web path to the map.  `none` when `mkdir` raises (a file blocks the path). -/
def save_crop_and_map (session_temp : PathSegs) (session_id : String) (st : PSt)
    (m : PersonMap) (person_key crop fname : String) : Option (PSt × PersonMap) :=
  match st.fs.mkdirp (pjoin session_temp person_key) with
  | none => none
  | some fs2 =>
    let st2 := PSt.write ⟨fs2, st.log⟩ (pjoin (pjoin session_temp person_key) fname) crop
    some (st2, mapAdd m person_key ("/temp/" ++ session_id ++ "/" ++ person_key ++ "/" ++ fname))

/-- Boxes of one tracking frame.  An exception inside `save_crop_and_map`
is caught by the per-frame handler, aborting the rest of the frame. -/
def procTBoxes (session_temp : PathSegs) (session_id : String) (fi : Nat) (h w : Int) :
    PSt → PersonMap → List TBox → PSt × PersonMap
  | st, m, [] => (st, m)
  | st, m, b :: bs =>
    if !b.convOk then procTBoxes session_temp session_id fi h w st m bs
    else
      match clampAccept h w b.x1 b.y1 b.x2 b.y2 with
      | none => procTBoxes session_temp session_id fi h w st m bs
      | some (x1, y1, x2, y2) =>
        let pk := "person_" ++ intStr b.tid
        let fname := "f" ++ natStr fi ++ "_id" ++ intStr b.tid ++ ".jpg"
        match save_crop_and_map session_temp session_id st m pk (cropStr fi x1 y1 x2 y2) fname with
        | none => (st, m)
        | some (st2, m2) => procTBoxes session_temp session_id fi h w st2 m2 bs

/-- The tracking loop.  `none` in the second component: the stream raised
and the exception escapes to the outer handler. -/
def procTrack (session_temp : PathSegs) (session_id : String) :
    PSt → PersonMap → Nat → List TItem → PSt × Option PersonMap
  | st, m, _, [] => (st, some m)
  | st, _, _, .fatal :: _ => (st, none)
  | st, m, fi, .noFrame :: rest => procTrack session_temp session_id st m (fi + 1) rest
  | st, m, fi, .frameErr :: rest => procTrack session_temp session_id st m (fi + 1) rest
  | st, m, fi, .frame h w boxes :: rest =>
    let r := procTBoxes session_temp session_id fi h w st m boxes
    procTrack session_temp session_id r.1 r.2 (fi + 1) rest

/-- Detections of one fallback frame.  There is no per-frame handler here:
an exception from `mkdir` (`none`) is fatal for the whole pipeline.  Each
accepted detection allocates a fresh person id. -/
def procCBoxes (session_temp : PathSegs) (session_id : String) (fi : Nat) (h w : Int) :
    PSt → PersonMap → Nat → List CBox → PSt × Option (PersonMap × Nat)
  | st, m, pid, [] => (st, some (m, pid))
  | st, m, pid, b :: bs =>
    if !b.convOk then procCBoxes session_temp session_id fi h w st m pid bs
    else if b.cls ≠ 0 then procCBoxes session_temp session_id fi h w st m pid bs
    else
      match clampAccept h w b.x1 b.y1 b.x2 b.y2 with
      | none => procCBoxes session_temp session_id fi h w st m pid bs
      | some (x1, y1, x2, y2) =>
        let pk := "person_" ++ natStr pid
        let fname := "f" ++ natStr fi ++ "_p" ++ natStr pid ++ ".jpg"
        match save_crop_and_map session_temp session_id st m pk (cropStr fi x1 y1 x2 y2) fname with
        | none => (st, none)
        | some (st2, m2) => procCBoxes session_temp session_id fi h w st2 m2 (pid + 1) bs

/-- The fallback loop: each sampled frame is dumped to
`frame_<idx>.jpg` at the session root before detection. -/
def procCFrames (session_temp : PathSegs) (session_id : String) :
    PSt → PersonMap → Nat → Nat → List CItem → PSt × Option PersonMap
  | st, m, _, _, [] => (st, some m)
  | st, _, _, _, .fatal :: _ => (st, none)
  | st, m, fi, pid, .frame h w dets :: rest =>
    if fi % SAMPLE_EVERY_N_FRAMES = 0 then
      let st1 := st.write (pjoin session_temp ("frame_" ++ natStr fi ++ ".jpg")) (frameStr fi)
      match procCBoxes session_temp session_id fi h w st1 m pid dets with
      | (st2, none) => (st2, none)
      | (st2, some (m2, pid2)) => procCFrames session_temp session_id st2 m2 (fi + 1) pid2 rest
    else procCFrames session_temp session_id st m (fi + 1) pid rest

/-- The body of the `try` block of `upload_video` up to the snapshot
write: drive the adapter, producing crops and the person map. -/
def runDetection (session_temp : PathSegs) (session_id : String) (st : PSt)
    (mode : AdMode) : PSt × Option PersonMap :=
  match mode with
  | .tracking items => procTrack session_temp session_id st [] 0 items
  | .fallback items => procCFrames session_temp session_id st [] 0 0 items

/-- A compact serialization standing for `json.dump(person_map, f, indent=2)`
(the claims treat the snapshot text as opaque content). -/
def jsonDumpMap (m : PersonMap) : String :=
  "\x7b" ++ String.intercalate ", "
    (m.map (fun e =>
      "\"" ++ e.1 ++ "\": [" ++ String.intercalate ", " (e.2.map (fun u => "\"" ++ u ++ "\"")) ++ "]"))
    ++ "\x7d"

def jsonSummary (session_id : String) (m : PersonMap) : String :=
  "\x7b\"session_id\": \"" ++ session_id ++ "\", \"persons\": " ++ jsonDumpMap m ++ "\x7d"

/-- `POST /upload_video/`: save the upload, create the session folder,
return early with an empty map when the adapter is unavailable, otherwise
run detection; on success write the snapshot and the backend summary, on a
pipeline-level error remove the whole session folder and surface a 500. -/
def upload_video (fs : FS) (session_id vid : String) (ad : Adapter) :
    PSt × Except HErr (String × PersonMap) :=
  let st1 := PSt.write ⟨fs, []⟩ (pjoin UPLOADS_DIR (session_id ++ ".mp4")) vid
  let session_temp := pjoin TEMP_ROOT session_id
  match st1.fs.mkdirp session_temp with
  | none => (st1, .error ⟨500, "OSError"⟩)
  | some fs2 =>
    let st2 : PSt := ⟨fs2, st1.log⟩
    if !ad.available then (st2, .ok (session_id, []))
    else
      match runDetection session_temp session_id st2 ad.mode with
      | (st3, none) =>
        (⟨st3.fs.rmtree session_temp, st3.log⟩, .error ⟨500, "Processing failed"⟩)
      | (st3, some m) =>
        let st4 := st3.write (pjoin session_temp "annotation.json") (jsonDumpMap m)
        let st5 := st4.write (pjoin ANNOTATIONS_DIR (session_id ++ "_summary.json"))
          (jsonSummary session_id m)
        (st5, .ok (session_id, m))

/-!  Basic lemmas about the path model. -/

theorem strExt {s t : String} (h : s.data = t.data) : s = t := by
  cases s; cases t; exact congrArg String.mk h

theorem splitCharsAux_no_sep (sep : Char) :
    ∀ (cs acc : List Char), sep ∉ cs → splitCharsAux sep acc cs = [acc.reverse ++ cs] := by
  intro cs
  induction cs with
  | nil => intro acc _; simp [splitCharsAux]
  | cons c cs ih =>
    intro acc h
    rw [List.mem_cons, not_or] at h
    simp only [splitCharsAux, if_neg (fun hc : c = sep => h.1 hc.symm)]
    rw [ih _ h.2]
    simp

theorem pySplit_no_slash (s : String) (h : '/' ∉ s.data) : pySplit s = [s] := by
  unfold pySplit
  rw [splitCharsAux_no_sep _ _ _ h]
  simp

theorem data_ne_nil_of_ne_empty (s : String) (h : s ≠ "") : s.data ≠ [] := by
  intro hd
  exact h (strExt (by rw [hd]))

theorem plainSeg_spec (s : String) (h : plainSeg s = true) :
    '/' ∉ s.data ∧ s ≠ "" ∧ s ≠ "." ∧ s ≠ ".." := by
  have hb : (!s.data.contains '/') = true ∧ (s != "") = true ∧ (s != ".") = true ∧
      (s != "..") = true := by
    unfold plainSeg at h
    simp only [Bool.and_eq_true] at h
    tauto
  refine ⟨?_, by simpa using hb.2.1, by simpa using hb.2.2.1, by simpa using hb.2.2.2⟩
  intro hm
  have hc : s.data.contains '/' = true := List.elem_iff.mpr hm
  have hb1 := hb.1
  rw [hc] at hb1
  simp at hb1

theorem plain_splitSegs (s : String) (h : plainSeg s = true) : splitSegs s = [s] := by
  obtain ⟨h1, h2, h3, _⟩ := plainSeg_spec s h
  unfold splitSegs
  rw [pySplit_no_slash s h1]
  simp [segKeep, h2, h3]

theorem plain_headD (s : String) (h : plainSeg s = true) : s.data.headD ' ' ≠ '/' := by
  obtain ⟨h1, h2, _, _⟩ := plainSeg_spec s h
  have hd := data_ne_nil_of_ne_empty s h2
  cases hcs : s.data with
  | nil => exact absurd hcs hd
  | cons c cs =>
    simp only [List.headD_cons]
    intro hc
    exact h1 (by rw [hcs, hc]; exact List.mem_cons_self _ _)

theorem plain_pjoin (p : PathSegs) (s : String) (h : plainSeg s = true) :
    pjoin p s = p ++ [s] := by
  unfold pjoin
  rw [if_neg (plain_headD s h), plain_splitSegs s h]

theorem resolveAux_append (l m acc : PathSegs) :
    resolveAux acc (l ++ m) = resolveAux (resolveAux acc l) m := by
  induction l generalizing acc with
  | nil => rfl
  | cons s rest ih =>
    simp only [List.cons_append, resolveAux]
    by_cases hs : s = ".."
    · rw [if_pos hs, if_pos hs]; exact ih _
    · rw [if_neg hs, if_neg hs]; exact ih _

/-- Paths free of ".." segments. -/
def noDotdot (p : PathSegs) : Bool := p.all (fun s => s != "..")

theorem resolveAux_noDotdot (p acc : PathSegs) (h : noDotdot p = true) :
    resolveAux acc p = acc ++ p := by
  induction p generalizing acc with
  | nil => simp [resolveAux]
  | cons s rest ih =>
    unfold noDotdot at h
    simp only [List.all_cons, Bool.and_eq_true, bne_iff_ne] at h
    simp only [resolveAux, if_neg h.1]
    rw [ih (acc ++ [s]) h.2]
    simp

theorem resolve_noDotdot (p : PathSegs) (h : noDotdot p = true) : resolve p = p := by
  unfold resolve
  rw [resolveAux_noDotdot p [] h]
  simp

theorem resolve_append_plain (p : PathSegs) (s : String) (hp : resolve p = p)
    (hs : s ≠ "..") : resolve (p ++ [s]) = p ++ [s] := by
  unfold resolve
  rw [resolveAux_append p [s] []]
  show resolveAux (resolve p) [s] = p ++ [s]
  rw [hp]
  simp [resolveAux, hs]

theorem pfx_iff (l m : PathSegs) : l.isPrefixOf m = true ↔ l <+: m :=
  List.isPrefixOf_iff_prefix

theorem pfx_false_of_lt (l m : PathSegs) (h : m.length < l.length) :
    l.isPrefixOf m = false := by
  by_contra hb
  have := (pfx_iff l m).mp (by revert hb; cases l.isPrefixOf m <;> simp)
  exact absurd this.length_le (by omega)

theorem pfx_eq_of_len (l m : PathSegs) (h : l.isPrefixOf m = true)
    (hl : l.length = m.length) : l = m :=
  ((pfx_iff l m).mp h).eq_of_length hl

theorem pfx_refl (l : PathSegs) : l.isPrefixOf l = true :=
  (pfx_iff l l).mpr (List.prefix_refl l)

theorem pfx_append (l r : PathSegs) : l.isPrefixOf (l ++ r) = true :=
  (pfx_iff l (l ++ r)).mpr ⟨r, rfl⟩

theorem pfx_ne_of_false (l m : PathSegs) (h : l.isPrefixOf m = false) : l ≠ m := by
  intro he
  rw [he, pfx_refl] at h
  cases h

/-!  Lemmas about lookups under the filesystem primitives. -/

theorem flookup_filter_ne (l : List (PathSegs × String)) (r q : PathSegs) (h : q ≠ r) :
    flookup (l.filter (fun e => e.1 != r)) q = flookup l q := by
  induction l with
  | nil => rfl
  | cons e es ih =>
    by_cases he : e.1 = r
    · rw [List.filter_cons_of_neg (by simp [he])]
      have hr : flookup (e :: es) q = flookup es q := by
        show (if e.1 = q then some e.2 else flookup es q) = _
        rw [if_neg (by rw [he]; exact fun hq => h hq.symm)]
      rw [hr, ih]
    · rw [List.filter_cons_of_pos (by simp [he])]
      unfold flookup
      by_cases hq : e.1 = q
      · rw [if_pos hq, if_pos hq]
      · rw [if_neg hq, if_neg hq, ih]

theorem flookup_filter_self (l : List (PathSegs × String)) (r : PathSegs) :
    flookup (l.filter (fun e => e.1 != r)) r = none := by
  induction l with
  | nil => rfl
  | cons e es ih =>
    by_cases he : e.1 = r
    · rw [List.filter_cons_of_neg (by simp [he])]; exact ih
    · rw [List.filter_cons_of_pos (by simp [he])]
      unfold flookup
      rw [if_neg (fun hq => he (by rw [hq]))]
      exact ih

theorem write_file_self (fs : FS) (p : PathSegs) (c : String) :
    (fs.write p c).file? (resolve p) = some c := by
  unfold FS.write FS.file?
  simp [flookup]

theorem write_file_ne (fs : FS) (p q : PathSegs) (c : String) (h : q ≠ resolve p) :
    (fs.write p c).file? q = fs.file? q := by
  unfold FS.write FS.file?
  show (if resolve p = q then some c else flookup _ q) = _
  rw [if_neg (fun he => h he.symm), flookup_filter_ne _ _ _ h]

theorem write_dirs (fs : FS) (p : PathSegs) (c : String) :
    (fs.write p c).dirs = fs.dirs := rfl

theorem unlink_file_ne (fs : FS) (p q : PathSegs) (h : q ≠ resolve p) :
    (fs.unlink p).file? q = fs.file? q :=
  flookup_filter_ne _ _ _ h

theorem unlink_file_self (fs : FS) (p : PathSegs) :
    (fs.unlink p).file? (resolve p) = none :=
  flookup_filter_self _ _

theorem unlink_dirs (fs : FS) (p : PathSegs) : (fs.unlink p).dirs = fs.dirs := rfl

/-!  Lemmas about `mkdirp`. -/

theorem ancestors_len (r : PathSegs) : ∀ q ∈ ancestors r, q.length ≤ r.length := by
  induction r with
  | nil => intro q hq; simp [ancestors] at hq; simp [hq]
  | cons s rest ih =>
    intro q hq
    simp only [ancestors, List.mem_cons, List.mem_map] at hq
    rcases hq with h | ⟨a, ha, rfl⟩
    · simp [h]
    · have := ih a ha
      simp [List.length_cons]
      omega

theorem ancestors_self (r : PathSegs) : r ∈ ancestors r := by
  induction r with
  | nil => simp [ancestors]
  | cons s rest ih =>
    unfold ancestors
    exact List.mem_cons.mpr (Or.inr (List.mem_map.mpr ⟨rest, ih, rfl⟩))

theorem contains_true_iff (l : List PathSegs) (a : PathSegs) :
    l.contains a = true ↔ a ∈ l := List.elem_iff

theorem contains_false_iff (l : List PathSegs) (a : PathSegs) :
    l.contains a = false ↔ a ∉ l := by
  rw [← contains_true_iff]
  cases hc : l.contains a <;> simp

theorem mkdirp_files (fs fs2 : FS) (p : PathSegs) (h : fs.mkdirp p = some fs2) :
    fs2.files = fs.files := by
  unfold FS.mkdirp at h
  split at h
  · cases h
  · cases h; rfl

theorem mkdirp_file (fs fs2 : FS) (p q : PathSegs) (h : fs.mkdirp p = some fs2) :
    fs2.file? q = fs.file? q := by
  unfold FS.file?
  rw [mkdirp_files fs fs2 p h]

theorem mkdirp_dirs (fs fs2 : FS) (p : PathSegs) (h : fs.mkdirp p = some fs2) :
    fs2.dirs = (ancestors (resolve p)).filter (fun q => !fs.dirs.contains q) ++ fs.dirs := by
  unfold FS.mkdirp at h
  split at h
  · cases h
  · cases h; rfl

theorem mkdirp_isDir_longer (fs fs2 : FS) (p q : PathSegs) (h : fs.mkdirp p = some fs2)
    (hq : (resolve p).length < q.length) : fs2.isDir q = fs.isDir q := by
  unfold FS.isDir
  rw [mkdirp_dirs fs fs2 p h]
  by_cases hm : q ∈ fs.dirs
  · rw [(contains_true_iff _ _).mpr hm,
      (contains_true_iff _ _).mpr (List.mem_append.mpr (Or.inr hm))]
  · rw [(contains_false_iff _ _).mpr hm, (contains_false_iff _ _).mpr]
    intro hx
    rcases List.mem_append.mp hx with hx1 | hx2
    · have := ancestors_len (resolve p) q (List.mem_filter.mp hx1).1
      omega
    · exact hm hx2

theorem mkdirp_isDir_self (fs fs2 : FS) (p : PathSegs) (h : fs.mkdirp p = some fs2) :
    fs2.isDir (resolve p) = true := by
  unfold FS.isDir
  rw [mkdirp_dirs fs fs2 p h]
  rw [contains_true_iff]
  by_cases hc : resolve p ∈ fs.dirs
  · exact List.mem_append.mpr (Or.inr hc)
  · refine List.mem_append.mpr (Or.inl (List.mem_filter.mpr ⟨ancestors_self _, ?_⟩))
    rw [(contains_false_iff _ _).mpr hc]
    rfl

theorem mkdirp_some_of_all (fs : FS) (p : PathSegs)
    (h : (ancestors (resolve p)).all (fun q => (fs.file? q).isNone) = true) :
    fs.mkdirp p =
      some { fs with
        dirs := (ancestors (resolve p)).filter (fun q => !fs.dirs.contains q) ++ fs.dirs } := by
  unfold FS.mkdirp
  rw [if_neg]
  rw [List.any_eq_true]
  rintro ⟨x, hx, hs⟩
  rw [List.all_eq_true] at h
  have hn := h x hx
  rw [Option.isNone_iff_eq_none] at hn
  rw [hn] at hs
  cases hs

/-!  Lemmas about `FS.rename` (the worker behind `os.rename` and
`shutil.move`). -/

theorem flookup_cons (e : PathSegs × String) (l : List (PathSegs × String)) (q : PathSegs) :
    flookup (e :: l) q = if e.1 = q then some e.2 else flookup l q := rfl

theorem renF_moved {src dst : PathSegs} {e : PathSegs × String}
    (h : src.isPrefixOf e.1 = true) :
    renF src dst e = some (dst ++ e.1.drop src.length, e.2) := by simp [renF, h]

theorem renF_drop {src dst : PathSegs} {e : PathSegs × String}
    (h1 : src.isPrefixOf e.1 = false) (h2 : e.1 = dst) : renF src dst e = none := by
  unfold renF
  rw [h1, h2]
  simp

theorem renF_keep {src dst : PathSegs} {e : PathSegs × String}
    (h1 : src.isPrefixOf e.1 = false) (h2 : e.1 ≠ dst) : renF src dst e = some e := by
  unfold renF
  rw [h1]
  simp [h2]

theorem renD_moved {src dst d : PathSegs} (h : src.isPrefixOf d = true) :
    renD src dst d = some (dst ++ d.drop src.length) := by simp [renD, h]

theorem renD_drop {src dst d : PathSegs} (h1 : src.isPrefixOf d = false) (h2 : d = dst) :
    renD src dst d = none := by
  unfold renD
  rw [h1, h2]
  simp

theorem renD_keep {src dst d : PathSegs} (h1 : src.isPrefixOf d = false) (h2 : d ≠ dst) :
    renD src dst d = some d := by
  unfold renD
  rw [h1]
  simp [h2]

theorem ren_lookup_pres (src dst q : PathSegs) (hs : src.isPrefixOf q = false)
    (hd : dst.isPrefixOf q = false) (l : List (PathSegs × String)) :
    flookup (l.filterMap (renF src dst)) q = flookup l q := by
  induction l with
  | nil => rfl
  | cons e es ih =>
    rw [List.filterMap_cons, flookup_cons]
    by_cases h1 : src.isPrefixOf e.1 = true
    · have hk : dst ++ e.1.drop src.length ≠ q := by
        intro he
        rw [← he, pfx_append] at hd
        cases hd
      have he1 : e.1 ≠ q := by
        intro he
        rw [he, hs] at h1
        cases h1
      rw [renF_moved h1, flookup_cons, if_neg hk, if_neg he1, ih]
    · rw [Bool.not_eq_true] at h1
      by_cases h2 : e.1 = dst
      · have he1 : e.1 ≠ q := by
          rw [h2]
          exact pfx_ne_of_false _ _ hd
        rw [renF_drop h1 h2, if_neg he1, ih]
      · rw [renF_keep h1 h2, flookup_cons]
        by_cases h3 : e.1 = q
        · rw [if_pos h3, if_pos h3]
        · rw [if_neg h3, if_neg h3, ih]

theorem ren_lookup_gone (src dst q : PathSegs) (hq : src.isPrefixOf q = true)
    (hd : dst.isPrefixOf q = false) (l : List (PathSegs × String)) :
    flookup (l.filterMap (renF src dst)) q = none := by
  induction l with
  | nil => rfl
  | cons e es ih =>
    rw [List.filterMap_cons]
    by_cases h1 : src.isPrefixOf e.1 = true
    · rw [renF_moved h1, flookup_cons,
        if_neg (fun he => by rw [← he, pfx_append] at hd; cases hd), ih]
    · rw [Bool.not_eq_true] at h1
      by_cases h2 : e.1 = dst
      · rw [renF_drop h1 h2, ih]
      · rw [renF_keep h1 h2, flookup_cons,
          if_neg (fun he => by rw [he, hq] at h1; cases h1), ih]

theorem ren_lookup_moved (src dst : PathSegs) (c : String) (l : List (PathSegs × String))
    (h : flookup l src = some c) :
    flookup (l.filterMap (renF src dst)) dst = some c := by
  induction l with
  | nil => cases h
  | cons e es ih =>
    rw [List.filterMap_cons]
    rw [flookup_cons] at h
    by_cases h0 : e.1 = src
    · rw [if_pos h0] at h
      have hc : e.2 = c := Option.some.inj h
      rw [renF_moved (h0 ▸ pfx_refl e.1 : src.isPrefixOf e.1 = true), flookup_cons,
        if_pos (show dst ++ e.1.drop src.length = dst by
          rw [h0, List.drop_length, List.append_nil]), hc]
    · rw [if_neg h0] at h
      by_cases h1 : src.isPrefixOf e.1 = true
      · have hlen : src.length < e.1.length := by
          have hp := (pfx_iff _ _).mp h1
          have hle := hp.length_le
          rcases Nat.lt_or_ge src.length e.1.length with hlt | hge
          · exact hlt
          · exact absurd (hp.eq_of_length (by omega)) (fun he => h0 he.symm)
        rw [renF_moved h1, flookup_cons, if_neg (fun he => by
          have he2 : dst ++ e.1.drop src.length = dst := he
          have hlen2 : (dst ++ e.1.drop src.length).length = dst.length := by rw [he2]
          rw [List.length_append, List.length_drop] at hlen2
          omega), ih h]
      · rw [Bool.not_eq_true] at h1
        by_cases h2 : e.1 = dst
        · rw [renF_drop h1 h2, ih h]
        · rw [renF_keep h1 h2, flookup_cons, if_neg h2, ih h]

theorem ren_mem_pres (src dst q : PathSegs) (hs : src.isPrefixOf q = false)
    (hd : dst.isPrefixOf q = false) (l : List PathSegs) :
    (q ∈ l.filterMap (renD src dst)) ↔ q ∈ l := by
  rw [List.mem_filterMap]
  constructor
  · rintro ⟨a, ha, hfa⟩
    by_cases h1 : src.isPrefixOf a = true
    · rw [renD_moved h1] at hfa
      have he : dst ++ a.drop src.length = q := Option.some.inj hfa
      rw [← he, pfx_append] at hd
      cases hd
    · rw [Bool.not_eq_true] at h1
      by_cases h2 : a = dst
      · rw [renD_drop h1 h2] at hfa; cases hfa
      · rw [renD_keep h1 h2] at hfa
        rw [← Option.some.inj hfa]
        exact ha
  · intro hq
    exact ⟨q, hq, renD_keep hs (pfx_ne_of_false _ _ hd).symm⟩

theorem ren_mem_gone (src dst q : PathSegs) (hq : src.isPrefixOf q = true)
    (hd : dst.isPrefixOf q = false) (l : List PathSegs) :
    q ∉ l.filterMap (renD src dst) := by
  rw [List.mem_filterMap]
  rintro ⟨a, ha, hfa⟩
  by_cases h1 : src.isPrefixOf a = true
  · rw [renD_moved h1] at hfa
    have he : dst ++ a.drop src.length = q := Option.some.inj hfa
    rw [← he, pfx_append] at hd
    cases hd
  · rw [Bool.not_eq_true] at h1
    by_cases h2 : a = dst
    · rw [renD_drop h1 h2] at hfa; cases hfa
    · rw [renD_keep h1 h2] at hfa
      rw [Option.some.inj hfa, hq] at h1
      cases h1

theorem rename_file_pres (fs : FS) (src dst q : PathSegs) (hs : src.isPrefixOf q = false)
    (hd : dst.isPrefixOf q = false) : (fs.rename src dst).file? q = fs.file? q :=
  ren_lookup_pres src dst q hs hd fs.files

theorem rename_file_gone (fs : FS) (src dst q : PathSegs) (hq : src.isPrefixOf q = true)
    (hd : dst.isPrefixOf q = false) : (fs.rename src dst).file? q = none :=
  ren_lookup_gone src dst q hq hd fs.files

theorem rename_file_moved (fs : FS) (src dst : PathSegs) (c : String)
    (h : fs.file? src = some c) : (fs.rename src dst).file? dst = some c :=
  ren_lookup_moved src dst c fs.files h

theorem rename_isDir_pres (fs : FS) (src dst q : PathSegs) (hs : src.isPrefixOf q = false)
    (hd : dst.isPrefixOf q = false) : (fs.rename src dst).isDir q = fs.isDir q := by
  unfold FS.isDir FS.rename
  by_cases hm : q ∈ fs.dirs
  · rw [(contains_true_iff _ _).mpr hm,
      (contains_true_iff _ _).mpr ((ren_mem_pres src dst q hs hd fs.dirs).mpr hm)]
  · rw [(contains_false_iff _ _).mpr hm, (contains_false_iff _ _).mpr
      (fun hx => hm ((ren_mem_pres src dst q hs hd fs.dirs).mp hx))]

theorem rename_isDir_gone (fs : FS) (src dst q : PathSegs) (hq : src.isPrefixOf q = true)
    (hd : dst.isPrefixOf q = false) : (fs.rename src dst).isDir q = false := by
  unfold FS.isDir FS.rename
  exact (contains_false_iff _ _).mpr (ren_mem_gone src dst q hq hd fs.dirs)

/-!  Claims. -/

deriving instance DecidableEq for Except

/-- A filesystem with a file `x.txt` two levels above the temporary-store
root (at the filesystem root), next to the provisioned store directories. -/
def fsTrav : FS :=
  { files := [(["x.txt"], "secret")],
    dirs := [[], ["annotation-frontend"], TEMP_ROOT] }

/-- Claim C1: the spec requires every session-scoped correction operation
to reject, with a Validation error and no mutation, any path resolving
outside the session's subtree, and forbids reads/creates/moves/deletes
outside the temporary-store root.  The code defines the corresponding
guard `safe_temp_session_path` (which does reject the traversal session id
"..") but never calls it: `delete_image` accepts the URI
"/temp/../../x.txt", resolves it to the file `x.txt` outside the
temporary-store root, deletes it and reports success. -/
theorem C1_traversal_escape :
    safe_temp_session_path ".." = .error ⟨400, "Invalid session path"⟩ ∧
    (delete_image fsTrav (some "/temp/../../x.txt")).2 = .ok "/temp/../../x.txt" ∧
    fsTrav.file? ["x.txt"] = some "secret" ∧
    (delete_image fsTrav (some "/temp/../../x.txt")).1.file? ["x.txt"] = none ∧
    TEMP_ROOT.isPrefixOf ["x.txt"] = false := by
  decide

/-- A demo session "s1": the snapshot, two groups, a root frame dump, and
a subdirectory inside a group. -/
def fsDemo : FS :=
  { files := [(TEMP_ROOT ++ ["s1", "annotation.json"], "SNAP"),
              (TEMP_ROOT ++ ["s1", "person_0", "a.jpg"], "A"),
              (TEMP_ROOT ++ ["s1", "person_0", "b.jpg"], "B"),
              (TEMP_ROOT ++ ["s1", "g2", "a.jpg"], "C2"),
              (TEMP_ROOT ++ ["s1", "g2", "a_ffffff.jpg"], "C3"),
              (TEMP_ROOT ++ ["s1", "frame_0.jpg"], "F")],
    dirs := [[], ["annotation-frontend"], TEMP_ROOT, ["annotation-backend"],
             UPLOADS_DIR, ANNOTATIONS_DIR, PERSONS_DB,
             TEMP_ROOT ++ ["s1"], TEMP_ROOT ++ ["s1", "person_0"],
             TEMP_ROOT ++ ["s1", "g2"], TEMP_ROOT ++ ["s1", "person_0", "sub"]] }

/-- Claim C2: a move-image request whose (well-formed) source URI names a
nonexistent file fails with Not-Found and mutates nothing; in particular
the destination group directory is not created, because the existence
check precedes the `mkdir` of the destination folder. -/
theorem C2_move_missing_source (fs : FS) (src dp sfx : String)
    (hdp : dp ≠ "")
    (hst : startsW "/temp/" src = true)
    (hlen : 5 ≤ (pySplit src).length)
    (hne : fs.pexists (pjoin (pjoin (pjoin TEMP_ROOT ((pySplit src).getD 2 ""))
      ((pySplit src).getD 3 "")) ((pySplit src).getLastD "")) = false) :
    move_image fs (some src) (some dp) sfx = (fs, .error ⟨404, "Source file not found"⟩) := by
  have hsrc : src ≠ "" := by
    intro h
    rw [h] at hst
    exact absurd hst (by decide)
  have h1 : (falsy (some src) || falsy (some dp)) = false := by
    simp [falsy, hsrc, hdp]
  unfold move_image
  rw [h1]
  simp only [Bool.false_eq_true, if_false, Option.getD_some]
  rw [hst]
  simp only [Bool.not_true, Bool.false_eq_true, if_false]
  rw [if_neg (by omega)]
  rw [hne]
  simp

/-- Witness for C2 at a concrete state: moving a missing source file of
session "s1" into group "g2" reports Not-Found and leaves the filesystem
unchanged. -/
theorem C2_move_missing_source_witness :
    move_image fsDemo (some "/temp/s1/person_0/zzz.jpg") (some "g2") "ffffff" =
      (fsDemo, .error ⟨404, "Source file not found"⟩) :=
  C2_move_missing_source fsDemo "/temp/s1/person_0/zzz.jpg" "g2" "ffffff"
    (by decide) (by decide) (by decide) (by decide)

theorem pfx_false_of_ne_len (l m : PathSegs) (hlen : l.length = m.length) (hne : l ≠ m) :
    l.isPrefixOf m = false := by
  cases hp : l.isPrefixOf m
  · rfl
  · exact absurd (pfx_eq_of_len l m hp hlen) hne

theorem resolve_fixed_plain (root : PathSegs) (l : List String) (hr : noDotdot root = true)
    (hl : ∀ x ∈ l, plainSeg x = true) : resolve (root ++ l) = root ++ l := by
  apply resolve_noDotdot
  unfold noDotdot at hr ⊢
  rw [List.all_append, hr]
  simp only [Bool.true_and]
  rw [List.all_eq_true]
  intro x hx
  have := (plainSeg_spec x (hl x hx)).2.2.2
  simp [this]

theorem pexists_eq (fs : FS) (p : PathSegs) :
    fs.pexists p = ((fs.file? (resolve p)).isSome || fs.isDir (resolve p)) := rfl

theorem mkdirp_pexists_longer (fs fs2 : FS) (p q : PathSegs) (h : fs.mkdirp p = some fs2)
    (hq : (resolve p).length < q.length) (hqr : resolve q = q) :
    fs2.pexists q = fs.pexists q := by
  rw [pexists_eq, pexists_eq, hqr, mkdirp_file fs fs2 p q h,
    mkdirp_isDir_longer fs fs2 p q h hq]

theorem splitext_parts_len (s : String) :
    (splitext s).1.length + (splitext s).2.length = s.length := by
  unfold splitext
  cases h : extSplitIdx s.data with
  | none =>
    show s.length + ("" : String).length = s.length
    rfl
  | some i =>
    show (s.data.take i).length + (s.data.drop i).length = s.length
    rw [List.length_take, List.length_drop]
    show min i s.data.length + (s.data.length - i) = s.data.length
    omega

theorem sfx_name_ne (fn sfx : String) :
    (splitext fn).1 ++ "_" ++ sfx ++ (splitext fn).2 ≠ fn := by
  intro h
  have hc := congrArg String.length h
  rw [String.length_append, String.length_append, String.length_append] at hc
  have hp := splitext_parts_len fn
  have hu : ("_" : String).length = 1 := rfl
  omega

theorem temp3_inj {a b c d e f : String}
    (h : TEMP_ROOT ++ [a, b, c] = TEMP_ROOT ++ [d, e, f]) : a = d ∧ b = e ∧ c = f := by
  have hh := List.append_cancel_left h
  simpa using hh

/-- Claim C3 (amended): when the destination group already holds a file
with the source's name and the suffixed name `base_<sfx>ext` is itself not
taken, a successful move stores the file under the suffixed name, removes
the source, and leaves every other pre-existing file of the destination
group untouched. -/
theorem C3_collision_suffix (fs : FS) (src dp sfx p2 p3 fn c : String)
    (hst : startsW "/temp/" src = true)
    (hlen : 5 ≤ (pySplit src).length)
    (hp2e : (pySplit src).getD 2 "" = p2)
    (hp3e : (pySplit src).getD 3 "" = p3)
    (hfne : (pySplit src).getLastD "" = fn)
    (hp2 : plainSeg p2 = true) (hp3 : plainSeg p3 = true) (hfn : plainSeg fn = true)
    (hdp : plainSeg dp = true)
    (hps : plainSeg ((splitext fn).1 ++ "_" ++ sfx ++ (splitext fn).2) = true)
    (hex : fs.file? (TEMP_ROOT ++ [p2, p3, fn]) = some c)
    (hnd : fs.isDir (TEMP_ROOT ++ [p2, p3, fn]) = false)
    (hmk : (ancestors (TEMP_ROOT ++ [p2, dp])).all (fun q => (fs.file? q).isNone) = true)
    (hcoll : fs.pexists (TEMP_ROOT ++ [p2, dp, fn]) = true)
    (hfree : fs.pexists
      (TEMP_ROOT ++ [p2, dp, (splitext fn).1 ++ "_" ++ sfx ++ (splitext fn).2]) = false) :
    (move_image fs (some src) (some dp) sfx).2 =
      .ok ("/temp/" ++ p2 ++ "/" ++ dp ++ "/" ++
        ((splitext fn).1 ++ "_" ++ sfx ++ (splitext fn).2)) ∧
    (move_image fs (some src) (some dp) sfx).1.file?
      (TEMP_ROOT ++ [p2, dp, (splitext fn).1 ++ "_" ++ sfx ++ (splitext fn).2]) = some c ∧
    (move_image fs (some src) (some dp) sfx).1.file? (TEMP_ROOT ++ [p2, p3, fn]) = none ∧
    (∀ f : String, TEMP_ROOT ++ [p2, dp, f] ≠ TEMP_ROOT ++ [p2, p3, fn] →
      f ≠ (splitext fn).1 ++ "_" ++ sfx ++ (splitext fn).2 →
      (move_image fs (some src) (some dp) sfx).1.file? (TEMP_ROOT ++ [p2, dp, f]) =
        fs.file? (TEMP_ROOT ++ [p2, dp, f])) := by
  set sfxN := (splitext fn).1 ++ "_" ++ sfx ++ (splitext fn).2 with hsfxN
  have hfn_ne : fn ≠ sfxN := fun h => sfx_name_ne fn sfx h.symm
  have hsrc : src ≠ "" := by
    intro h
    rw [h] at hst
    exact absurd hst (by decide)
  have hdpne : dp ≠ "" := (plainSeg_spec dp hdp).2.1
  have hplain3 : ∀ x ∈ [p2, p3, fn], plainSeg x = true := by
    intro x hx
    simp only [List.mem_cons, List.not_mem_nil, or_false] at hx
    rcases hx with rfl | rfl | rfl <;> assumption
  have hplainDF : ∀ x ∈ [p2, dp, fn], plainSeg x = true := by
    intro x hx
    simp only [List.mem_cons, List.not_mem_nil, or_false] at hx
    rcases hx with rfl | rfl | rfl <;> assumption
  have hplainDS : ∀ x ∈ [p2, dp, sfxN], plainSeg x = true := by
    intro x hx
    simp only [List.mem_cons, List.not_mem_nil, or_false] at hx
    rcases hx with rfl | rfl | rfl <;> assumption
  have hplainD : ∀ x ∈ [p2, dp], plainSeg x = true := by
    intro x hx
    simp only [List.mem_cons, List.not_mem_nil, or_false] at hx
    rcases hx with rfl | rfl <;> assumption
  have hr3 : resolve (TEMP_ROOT ++ [p2, p3, fn]) = TEMP_ROOT ++ [p2, p3, fn] :=
    resolve_fixed_plain _ _ (by decide) hplain3
  have hrDF : resolve (TEMP_ROOT ++ [p2, dp, fn]) = TEMP_ROOT ++ [p2, dp, fn] :=
    resolve_fixed_plain _ _ (by decide) hplainDF
  have hrDS : resolve (TEMP_ROOT ++ [p2, dp, sfxN]) = TEMP_ROOT ++ [p2, dp, sfxN] :=
    resolve_fixed_plain _ _ (by decide) hplainDS
  have hrD : resolve (TEMP_ROOT ++ [p2, dp]) = TEMP_ROOT ++ [p2, dp] :=
    resolve_fixed_plain _ _ (by decide) hplainD
  -- path constructions
  have hj3 : pjoin (pjoin (pjoin TEMP_ROOT p2) p3) fn = TEMP_ROOT ++ [p2, p3, fn] := by
    rw [plain_pjoin _ _ hp2, plain_pjoin _ _ hp3, plain_pjoin _ _ hfn]
    simp [List.append_assoc]
  have hjD : pjoin (pjoin TEMP_ROOT p2) dp = TEMP_ROOT ++ [p2, dp] := by
    rw [plain_pjoin _ _ hp2, plain_pjoin _ _ hdp]
    simp [List.append_assoc]
  have hjDF : pjoin (TEMP_ROOT ++ [p2, dp]) fn = TEMP_ROOT ++ [p2, dp, fn] := by
    rw [plain_pjoin _ _ hfn]
    simp [List.append_assoc]
  have hjDS : pjoin (TEMP_ROOT ++ [p2, dp]) sfxN = TEMP_ROOT ++ [p2, dp, sfxN] := by
    rw [plain_pjoin _ _ hps]
    simp [List.append_assoc]
  -- the mkdir of the destination folder succeeds
  have hmk2 : fs.mkdirp (TEMP_ROOT ++ [p2, dp]) = some { fs with
      dirs := (ancestors (TEMP_ROOT ++ [p2, dp])).filter (fun q => !fs.dirs.contains q)
        ++ fs.dirs } := by
    have hh := mkdirp_some_of_all fs (TEMP_ROOT ++ [p2, dp]) (by rw [hrD]; exact hmk)
    rw [hrD] at hh
    exact hh
  set FS2 : FS := { fs with
    dirs := (ancestors (TEMP_ROOT ++ [p2, dp])).filter (fun q => !fs.dirs.contains q)
      ++ fs.dirs } with hFS2
  have hlen4 : (resolve (TEMP_ROOT ++ [p2, dp])).length < (TEMP_ROOT ++ [p2, dp, fn]).length := by
    rw [hrD]
    simp [TEMP_ROOT]
  have hlen4b : (resolve (TEMP_ROOT ++ [p2, dp])).length <
      (TEMP_ROOT ++ [p2, dp, sfxN]).length := by
    rw [hrD]
    simp [TEMP_ROOT]
  have hlen4c : (resolve (TEMP_ROOT ++ [p2, dp])).length <
      (TEMP_ROOT ++ [p2, p3, fn]).length := by
    rw [hrD]
    simp [TEMP_ROOT]
  -- facts about FS2
  have hF2coll : FS2.pexists (TEMP_ROOT ++ [p2, dp, fn]) = true := by
    rw [mkdirp_pexists_longer fs FS2 _ _ hmk2 hlen4 hrDF]
    exact hcoll
  have hF2free : FS2.pexists (TEMP_ROOT ++ [p2, dp, sfxN]) = false := by
    rw [mkdirp_pexists_longer fs FS2 _ _ hmk2 hlen4b hrDS]
    exact hfree
  have hfreeDir : FS2.isDir (TEMP_ROOT ++ [p2, dp, sfxN]) = false := by
    have hh := hF2free
    rw [pexists_eq, hrDS] at hh
    exact (Bool.or_eq_false_iff.mp hh).2
  have hF2src : FS2.file? (TEMP_ROOT ++ [p2, p3, fn]) = some c := by
    rw [mkdirp_file fs FS2 _ _ hmk2]
    exact hex
  have hF2srcDir : FS2.isDir (TEMP_ROOT ++ [p2, p3, fn]) = false := by
    rw [mkdirp_isDir_longer fs FS2 _ _ hmk2 hlen4c]
    exact hnd
  have hF2destDir : FS2.isDir (TEMP_ROOT ++ [p2, dp]) = true := by
    have hh := mkdirp_isDir_self fs FS2 _ hmk2
    rw [hrD] at hh
    exact hh
  -- the shutil.move call
  have hdl : (TEMP_ROOT ++ [p2, dp, sfxN]).dropLast = TEMP_ROOT ++ [p2, dp] := by
    simp [TEMP_ROOT]
  have hsm : shutilMove FS2 (TEMP_ROOT ++ [p2, p3, fn]) (TEMP_ROOT ++ [p2, dp, sfxN]) =
      some (FS2.rename (TEMP_ROOT ++ [p2, p3, fn]) (TEMP_ROOT ++ [p2, dp, sfxN])) := by
    simp only [shutilMove]
    rw [hr3, hrDS, hfreeDir]
    simp only [Bool.false_eq_true, if_false, Bool.false_and]
    rw [show FS2.pexists (TEMP_ROOT ++ [p2, p3, fn]) = true by
      rw [pexists_eq, hr3, hF2src]; rfl]
    simp only [Bool.not_true, Bool.false_eq_true, if_false]
    rw [if_neg (show ¬(TEMP_ROOT ++ [p2, p3, fn] ≠ TEMP_ROOT ++ [p2, dp, sfxN] ∧
        List.isPrefixOf (TEMP_ROOT ++ [p2, p3, fn]) (TEMP_ROOT ++ [p2, dp, sfxN]) = true) from
      fun hand => hand.1 (pfx_eq_of_len _ _ hand.2 (by simp [TEMP_ROOT])))]
    rw [hF2srcDir]
    simp only [Bool.false_and, Bool.false_eq_true, if_false]
    rw [hdl, hF2destDir]
    simp
  -- the whole call reduces to a rename
  have hmain : move_image fs (some src) (some dp) sfx =
      (FS2.rename (TEMP_ROOT ++ [p2, p3, fn]) (TEMP_ROOT ++ [p2, dp, sfxN]),
        .ok ("/temp/" ++ p2 ++ "/" ++ dp ++ "/" ++ sfxN)) := by
    have h1 : (falsy (some src) || falsy (some dp)) = false := by
      simp [falsy, hsrc, hdpne]
    unfold move_image
    rw [h1]
    simp only [Bool.false_eq_true, if_false, Option.getD_some]
    rw [hst]
    simp only [Bool.not_true, Bool.false_eq_true, if_false]
    rw [if_neg (by omega)]
    rw [hp2e, hp3e, hfne, hj3]
    rw [show fs.pexists (TEMP_ROOT ++ [p2, p3, fn]) = true by
      rw [pexists_eq, hr3, hex]; rfl]
    simp only [Bool.not_true, Bool.false_eq_true, if_false]
    rw [hjD, hmk2]
    simp only []
    rw [hjDF, hF2coll]
    simp only [if_true]
    rw [hjDS, hsm]
    simp only []
    rw [show (TEMP_ROOT ++ [p2, dp, sfxN]).getLastD "" = sfxN by simp [TEMP_ROOT]]
  -- conclusions
  rw [hmain]
  refine ⟨rfl, ?_, ?_, ?_⟩
  · exact rename_file_moved FS2 _ _ c hF2src
  · exact rename_file_gone FS2 _ _ _ (pfx_refl _)
      (pfx_false_of_ne_len _ _ (by simp [TEMP_ROOT])
        (fun hh => hfn_ne (temp3_inj hh).2.2.symm))
  · intro f hq1 hq2
    rw [rename_file_pres FS2 _ _ _
      (pfx_false_of_ne_len _ _ (by simp [TEMP_ROOT]) (fun hh => hq1 hh.symm))
      (pfx_false_of_ne_len _ _ (by simp [TEMP_ROOT])
        (fun hh => hq2 (temp3_inj hh).2.2.symm))]
    exact mkdirp_file fs FS2 _ _ hmk2

/-- Claim C3 counterexample: the random suffix is drawn without re-checking
for existence, so a move whose suffixed destination name is already taken
overwrites that pre-existing destination file: with `g2` holding
`a.jpg` and `a_ffffff.jpg` (content "C3"), moving `person_0/a.jpg`
(content "A") into `g2` while the drawn suffix is "ffffff" reports success
and replaces the content of `a_ffffff.jpg` — the claim's "a move never
overwrites any pre-existing file in the destination group" fails. -/
theorem C3_collision_overwrite_counterexample :
    (move_image fsDemo (some "/temp/s1/person_0/a.jpg") (some "g2") "ffffff").2 =
      .ok "/temp/s1/g2/a_ffffff.jpg" ∧
    fsDemo.file? (TEMP_ROOT ++ ["s1", "g2", "a_ffffff.jpg"]) = some "C3" ∧
    (move_image fsDemo (some "/temp/s1/person_0/a.jpg") (some "g2") "ffffff").1.file?
      (TEMP_ROOT ++ ["s1", "g2", "a_ffffff.jpg"]) = some "A" := by
  decide

/-- Witness for the amended C3 at a concrete state: with suffix "abc123"
free, the collision is resolved to `a_abc123.jpg`, the source is moved
there, and the pre-existing `g2/a.jpg` keeps its content. -/
theorem C3_collision_suffix_witness :
    (move_image fsDemo (some "/temp/s1/person_0/a.jpg") (some "g2") "abc123").2 =
      .ok "/temp/s1/g2/a_abc123.jpg" ∧
    (move_image fsDemo (some "/temp/s1/person_0/a.jpg") (some "g2") "abc123").1.file?
      (TEMP_ROOT ++ ["s1", "g2", "a_abc123.jpg"]) = some "A" ∧
    (move_image fsDemo (some "/temp/s1/person_0/a.jpg") (some "g2") "abc123").1.file?
      (TEMP_ROOT ++ ["s1", "g2", "a.jpg"]) = some "C2" := by
  have h := C3_collision_suffix fsDemo "/temp/s1/person_0/a.jpg" "g2" "abc123"
    "s1" "person_0" "a.jpg" "A" (by decide) (by decide) (by decide) (by decide)
    (by decide) (by decide) (by decide) (by decide) (by decide) (by decide)
    (by decide) (by decide) (by decide) (by decide) (by decide)
  have hsfx : (splitext "a.jpg").1 ++ "_" ++ "abc123" ++ (splitext "a.jpg").2 =
      "a_abc123.jpg" := by decide
  refine ⟨?_, ?_, ?_⟩
  · exact h.1.trans (by rw [hsfx]; decide)
  · have h2 := h.2.1
    rw [hsfx] at h2
    exact h2
  · exact (h.2.2.2 "a.jpg" (by decide) (by rw [hsfx]; decide)).trans rfl

theorem pfx_trans (a b q : PathSegs) (h1 : a.isPrefixOf b = true)
    (h2 : b.isPrefixOf q = true) : a.isPrefixOf q = true :=
  (pfx_iff a q).mpr (((pfx_iff a b).mp h1).trans ((pfx_iff b q).mp h2))

theorem shutilMove_pres (fs fs2 : FS) (s d q : PathSegs) (h : shutilMove fs s d = some fs2)
    (hs : (resolve s).isPrefixOf q = false) (hd : (resolve d).isPrefixOf q = false) :
    fs2.file? q = fs.file? q := by
  simp only [shutilMove] at h
  set rD := if fs.isDir (resolve d) = true then resolve d ++ [(resolve s).getLastD ""]
    else resolve d with hrD
  have hd2 : rD.isPrefixOf q = false := by
    rw [hrD]
    split
    · cases hp : (resolve d ++ [(resolve s).getLastD ""]).isPrefixOf q
      · rfl
      · rw [pfx_trans (resolve d) _ q (pfx_append _ _) hp] at hd
        cases hd
    · exact hd
  split at h
  · cases h
  · split at h
    · cases h
    · split at h
      · cases h
      · split at h
        · cases h
        · split at h
          · cases h
          · rw [← Option.some.inj h]
            exact rename_file_pres fs (resolve s) rD q hs hd2

theorem osRename_eq (fs fs2 : FS) (s d : PathSegs) (h : osRename fs s d = some fs2) :
    fs2 = fs.rename (resolve s) (resolve d) := by
  simp only [osRename] at h
  split at h
  · cases h
  · split at h
    · cases h
    · split at h
      · cases h
      · split at h
        · cases h
        · split at h
          · cases h
          · exact (Option.some.inj h).symm

theorem temp2_inj {a b d e : String}
    (h : TEMP_ROOT ++ [a, b] = TEMP_ROOT ++ [d, e]) : a = d ∧ b = e := by
  have hh := List.append_cancel_left h
  simpa using hh

/-- Claim C4 (amended): no correction operation writes new content to the
session snapshot `annotation.json`.  Create-group never touches file
contents at all; delete-image preserves it whenever its resolved target is
not the snapshot path itself; move-image preserves it whenever the URI
components and destination name are plain segments; rename-group preserves
it whenever neither its old nor its new resolved path is the snapshot
path.  (As the counterexample shows, rename-group applied to the name
"annotation.json" itself moves the snapshot away, so the unqualified
claim fails.) -/
theorem C4_snapshot_preserved (fs : FS) (sid : String) :
    (∀ sa na : Option String,
      ((add_person fs sa na).1).file? (TEMP_ROOT ++ [sid, "annotation.json"]) =
        fs.file? (TEMP_ROOT ++ [sid, "annotation.json"])) ∧
    (∀ p : String,
      resolve (pjoin (pjoin (pjoin TEMP_ROOT ((pySplit p).getD 2 ""))
        ((pySplit p).getD 3 "")) ((pySplit p).getLastD "")) ≠
          TEMP_ROOT ++ [sid, "annotation.json"] →
      ((delete_image fs (some p)).1).file? (TEMP_ROOT ++ [sid, "annotation.json"]) =
        fs.file? (TEMP_ROOT ++ [sid, "annotation.json"])) ∧
    (∀ src dp sfx : String,
      plainSeg ((pySplit src).getD 2 "") = true →
      plainSeg ((pySplit src).getD 3 "") = true →
      plainSeg ((pySplit src).getLastD "") = true →
      plainSeg dp = true →
      plainSeg ((splitext ((pySplit src).getLastD "")).1 ++ "_" ++ sfx ++
        (splitext ((pySplit src).getLastD "")).2) = true →
      ((move_image fs (some src) (some dp) sfx).1).file?
        (TEMP_ROOT ++ [sid, "annotation.json"]) =
        fs.file? (TEMP_ROOT ++ [sid, "annotation.json"])) ∧
    (∀ s2 old nw : String, plainSeg s2 = true → plainSeg old = true → plainSeg nw = true →
      ¬(s2 = sid ∧ old = "annotation.json") → ¬(s2 = sid ∧ nw = "annotation.json") →
      ((rename_person fs (some s2) (some old) (some nw)).1).file?
        (TEMP_ROOT ++ [sid, "annotation.json"]) =
        fs.file? (TEMP_ROOT ++ [sid, "annotation.json"])) := by
  refine ⟨?_, ?_, ?_, ?_⟩
  · -- add_person: only mkdir mutates, and mkdir never touches file contents
    intro sa na
    simp only [add_person]
    split
    · rfl
    · split
      · rfl
      · split
        case isTrue =>
          split
          · rfl
          · split
            · rfl
            · rename_i fs2 hmk
              exact mkdirp_file fs fs2 _ _ hmk
        case isFalse =>
          split
          · rfl
          · split
            · rfl
            · rename_i fs2 hmk
              exact mkdirp_file fs fs2 _ _ hmk
  · -- delete_image: unlink removes only its resolved target
    intro p hne
    simp only [delete_image, Option.getD_some]
    split
    · rfl
    · split
      · rfl
      · split
        · rfl
        · split
          · rfl
          · exact unlink_file_ne fs _ _ (fun he => hne he.symm)
  · -- move_image: with plain components every touched path is deeper than
    -- the session root, so the snapshot entry is untouched
    intro src dp sfx hp2 hp3 hfn hdp hps
    simp only [move_image, Option.getD_some]
    split
    · rfl
    · split
      · rfl
      · split
        · rfl
        · split
          · rfl
          · split
            · rfl
            · rename_i fs2 hmk
              have hj3 : pjoin (pjoin (pjoin TEMP_ROOT ((pySplit src).getD 2 ""))
                  ((pySplit src).getD 3 "")) ((pySplit src).getLastD "") =
                  TEMP_ROOT ++ [(pySplit src).getD 2 "", (pySplit src).getD 3 "",
                    (pySplit src).getLastD ""] := by
                rw [plain_pjoin _ _ hp2, plain_pjoin _ _ hp3, plain_pjoin _ _ hfn]
                simp [List.append_assoc]
              have hplain3 : ∀ x ∈ [(pySplit src).getD 2 "", (pySplit src).getD 3 "",
                  (pySplit src).getLastD ""], plainSeg x = true := by
                intro x hx
                simp only [List.mem_cons, List.not_mem_nil, or_false] at hx
                rcases hx with rfl | rfl | rfl <;> assumption
              have hsrcpfx : (resolve (pjoin (pjoin (pjoin TEMP_ROOT
                  ((pySplit src).getD 2 "")) ((pySplit src).getD 3 ""))
                  ((pySplit src).getLastD ""))).isPrefixOf
                  (TEMP_ROOT ++ [sid, "annotation.json"]) = false := by
                rw [hj3, resolve_fixed_plain _ _ (by decide) hplain3]
                exact pfx_false_of_lt _ _ (by simp [TEMP_ROOT])
              have hjD : pjoin (pjoin TEMP_ROOT ((pySplit src).getD 2 "")) dp =
                  TEMP_ROOT ++ [(pySplit src).getD 2 "", dp] := by
                rw [plain_pjoin _ _ hp2, plain_pjoin _ _ hdp]
                simp [List.append_assoc]
              have hdstpfx : (resolve (if fs2.pexists (pjoin (pjoin (pjoin TEMP_ROOT
                  ((pySplit src).getD 2 "")) dp) ((pySplit src).getLastD "")) = true then
                    pjoin (pjoin (pjoin TEMP_ROOT ((pySplit src).getD 2 "")) dp)
                      ((splitext ((pySplit src).getLastD "")).1 ++ "_" ++ sfx ++
                        (splitext ((pySplit src).getLastD "")).2)
                  else pjoin (pjoin (pjoin TEMP_ROOT ((pySplit src).getD 2 "")) dp)
                    ((pySplit src).getLastD ""))).isPrefixOf
                  (TEMP_ROOT ++ [sid, "annotation.json"]) = false := by
                split
                · have hjDS : pjoin (pjoin (pjoin TEMP_ROOT ((pySplit src).getD 2 "")) dp)
                      ((splitext ((pySplit src).getLastD "")).1 ++ "_" ++ sfx ++
                        (splitext ((pySplit src).getLastD "")).2) =
                      TEMP_ROOT ++ [(pySplit src).getD 2 "", dp,
                        (splitext ((pySplit src).getLastD "")).1 ++ "_" ++ sfx ++
                          (splitext ((pySplit src).getLastD "")).2] := by
                    rw [hjD, plain_pjoin _ _ hps]
                    simp [List.append_assoc]
                  have hplainDS : ∀ x ∈ [(pySplit src).getD 2 "", dp,
                      (splitext ((pySplit src).getLastD "")).1 ++ "_" ++ sfx ++
                        (splitext ((pySplit src).getLastD "")).2], plainSeg x = true := by
                    intro x hx
                    simp only [List.mem_cons, List.not_mem_nil, or_false] at hx
                    rcases hx with rfl | rfl | rfl <;> assumption
                  rw [hjDS, resolve_fixed_plain _ _ (by decide) hplainDS]
                  exact pfx_false_of_lt _ _ (by simp [TEMP_ROOT])
                · have hjDF : pjoin (pjoin (pjoin TEMP_ROOT ((pySplit src).getD 2 "")) dp)
                      ((pySplit src).getLastD "") =
                      TEMP_ROOT ++ [(pySplit src).getD 2 "", dp,
                        (pySplit src).getLastD ""] := by
                    rw [hjD, plain_pjoin _ _ hfn]
                    simp [List.append_assoc]
                  have hplainDF : ∀ x ∈ [(pySplit src).getD 2 "", dp,
                      (pySplit src).getLastD ""], plainSeg x = true := by
                    intro x hx
                    simp only [List.mem_cons, List.not_mem_nil, or_false] at hx
                    rcases hx with rfl | rfl | rfl <;> assumption
                  rw [hjDF, resolve_fixed_plain _ _ (by decide) hplainDF]
                  exact pfx_false_of_lt _ _ (by simp [TEMP_ROOT])
              split
              · exact mkdirp_file fs fs2 _ _ hmk
              · rename_i fs3 hsm
                rw [shutilMove_pres fs2 fs3 _ _ _ hsm hsrcpfx hdstpfx]
                exact mkdirp_file fs fs2 _ _ hmk
  · -- rename_person: neither the old nor the new resolved path is the snapshot
    intro s2 old nw hs2 hold hnw hno hnn
    simp only [rename_person, Option.getD_some]
    split
    · rfl
    · split
      · rfl
      · split
        · rfl
        · split
          · rfl
          · rename_i fs2 hos
            have hjo : pjoin (pjoin TEMP_ROOT s2) old = TEMP_ROOT ++ [s2, old] := by
              rw [plain_pjoin _ _ hs2, plain_pjoin _ _ hold]
              simp [List.append_assoc]
            have hjn : pjoin (pjoin TEMP_ROOT s2) nw = TEMP_ROOT ++ [s2, nw] := by
              rw [plain_pjoin _ _ hs2, plain_pjoin _ _ hnw]
              simp [List.append_assoc]
            have hplo : ∀ x ∈ [s2, old], plainSeg x = true := by
              intro x hx
              simp only [List.mem_cons, List.not_mem_nil, or_false] at hx
              rcases hx with rfl | rfl <;> assumption
            have hpln : ∀ x ∈ [s2, nw], plainSeg x = true := by
              intro x hx
              simp only [List.mem_cons, List.not_mem_nil, or_false] at hx
              rcases hx with rfl | rfl <;> assumption
            rw [osRename_eq fs fs2 _ _ hos]
            apply rename_file_pres
            · rw [hjo, resolve_fixed_plain _ _ (by decide) hplo]
              exact pfx_false_of_ne_len _ _ (by simp [TEMP_ROOT])
                (fun he => hno ⟨(temp2_inj he).1, (temp2_inj he).2⟩)
            · rw [hjn, resolve_fixed_plain _ _ (by decide) hpln]
              exact pfx_false_of_ne_len _ _ (by simp [TEMP_ROOT])
                (fun he => hnn ⟨(temp2_inj he).1, (temp2_inj he).2⟩)

/-- Claim C4 counterexample: `rename_person` accepts "annotation.json" as
an old group name (`Path.exists` is true for the snapshot file) and
renames the snapshot away: afterwards the snapshot's content at its path
is gone, refuting "after any sequence of corrections the snapshot's
content is exactly what the pipeline wrote". -/
theorem C4_snapshot_renamed_counterexample :
    (rename_person fsDemo (some "s1") (some "annotation.json") (some "px")).2 =
      .ok ("annotation.json", "px") ∧
    fsDemo.file? (TEMP_ROOT ++ ["s1", "annotation.json"]) = some "SNAP" ∧
    (rename_person fsDemo (some "s1") (some "annotation.json") (some "px")).1.file?
      (TEMP_ROOT ++ ["s1", "annotation.json"]) = none := by
  decide

/-- Witness for the amended C4: one concrete correction of each kind on
the demo session leaves the snapshot content untouched. -/
theorem C4_snapshot_preserved_witness :
    ((add_person fsDemo (some "s1") (some "g9")).1).file?
      (TEMP_ROOT ++ ["s1", "annotation.json"]) =
      fsDemo.file? (TEMP_ROOT ++ ["s1", "annotation.json"]) ∧
    ((delete_image fsDemo (some "/temp/s1/person_0/b.jpg")).1).file?
      (TEMP_ROOT ++ ["s1", "annotation.json"]) =
      fsDemo.file? (TEMP_ROOT ++ ["s1", "annotation.json"]) ∧
    ((move_image fsDemo (some "/temp/s1/person_0/a.jpg") (some "g2") "abc123").1).file?
      (TEMP_ROOT ++ ["s1", "annotation.json"]) =
      fsDemo.file? (TEMP_ROOT ++ ["s1", "annotation.json"]) ∧
    ((rename_person fsDemo (some "s1") (some "g2") (some "g3")).1).file?
      (TEMP_ROOT ++ ["s1", "annotation.json"]) =
      fsDemo.file? (TEMP_ROOT ++ ["s1", "annotation.json"]) := by
  have h := C4_snapshot_preserved fsDemo "s1"
  exact ⟨h.1 (some "s1") (some "g9"),
    h.2.1 "/temp/s1/person_0/b.jpg" (by decide),
    h.2.2.1 "/temp/s1/person_0/a.jpg" "g2" "abc123"
      (by decide) (by decide) (by decide) (by decide) (by decide),
    h.2.2.2 "s1" "g2" "g3" (by decide) (by decide) (by decide) (by decide) (by decide)⟩

theorem digitCh_ne_slash (m : Nat) : digitCh m ≠ '/' := by
  unfold digitCh
  repeat' split
  all_goals decide

theorem natDigitsF_no_slash (fuel n : Nat) : '/' ∉ natDigitsF fuel n := by
  induction fuel generalizing n with
  | zero =>
    intro hm
    simp only [natDigitsF, List.mem_singleton] at hm
    exact digitCh_ne_slash n hm.symm
  | succ fuel ih =>
    intro hm
    rw [natDigitsF] at hm
    split at hm
    · simp only [List.mem_singleton] at hm
      exact digitCh_ne_slash n hm.symm
    · rcases List.mem_append.mp hm with h1 | h2
      · exact ih (n / 10) h1
      · simp only [List.mem_singleton] at h2
        exact digitCh_ne_slash (n % 10) h2.symm

theorem natDigits_no_slash (n : Nat) : '/' ∉ natDigits n :=
  natDigitsF_no_slash n n

theorem intStr_no_slash (i : Int) : '/' ∉ (intStr i).data := by
  unfold intStr
  split
  · rw [show (("-" ++ natStr i.natAbs)).data = '-' :: (natStr i.natAbs).data from rfl]
    intro hm
    rcases List.mem_cons.mp hm with h1 | h2
    · cases h1
    · exact natDigits_no_slash _ h2
  · exact natDigits_no_slash _

theorem db_plain (i : Int) : plainSeg ("database_" ++ intStr i) = true := by
  have hne : ∀ t : String, t.data.headD '#' ≠ 'd' → "database_" ++ intStr i ≠ t := by
    intro t ht he
    apply ht
    rw [← he]
    rfl
  unfold plainSeg
  simp only [Bool.and_eq_true, bne_iff_ne]
  refine ⟨⟨⟨?_, hne "" (by decide)⟩, hne "." (by decide)⟩, hne ".." (by decide)⟩
  rw [show (!("database_" ++ intStr i).data.contains '/') = true ↔
    ¬ (("database_" ++ intStr i).data.contains '/' = true) by
      cases ("database_" ++ intStr i).data.contains '/' <;> simp]
  intro hc
  have hm := List.elem_iff.mp hc
  rw [String.data_append] at hm
  rcases List.mem_append.mp hm with h1 | h2
  · revert h1
    decide
  · exact intStr_no_slash i h2

theorem shutilMove_eq (fs fs2 : FS) (s d : PathSegs) (h : shutilMove fs s d = some fs2) :
    fs2 = fs.rename (resolve s)
      (if fs.isDir (resolve d) = true then resolve d ++ [(resolve s).getLastD ""]
        else resolve d) := by
  simp only [shutilMove] at h
  set rD := if fs.isDir (resolve d) = true then resolve d ++ [(resolve s).getLastD ""]
    else resolve d with hrD
  split at h
  · cases h
  · split at h
    · cases h
    · split at h
      · cases h
      · split at h
        · cases h
        · split at h
          · cases h
          · exact (Option.some.inj h).symm

theorem persons_not_pfx_temp (x q : List String) :
    (PERSONS_DB ++ x).isPrefixOf (TEMP_ROOT ++ q) = false := by
  cases hp : (PERSONS_DB ++ x).isPrefixOf (TEMP_ROOT ++ q)
  · rfl
  · obtain ⟨t, ht⟩ := (pfx_iff _ _).mp hp
    simp [PERSONS_DB, TEMP_ROOT] at ht

theorem dbNextIdx_ge_one (fs : FS) : 1 ≤ dbNextIdx fs := by
  unfold dbNextIdx
  have hstep : ∀ (l : List String) (acc : Int), acc ≤ l.foldl (fun n d =>
      if startsW "database_" d then
        match pyInt? ((pySplitU d).getD 1 "") with
        | some m => max n (m + 1)
        | none => n
      else n) acc := by
    intro l
    induction l with
    | nil => intro acc; simp
    | cons a t ih =>
      intro acc
      refine le_trans ?_ (ih _)
      simp only [List.foldl_cons]
      split
      · split
        · exact le_max_left _ _
        · exact le_refl _
      · exact le_refl _
  exact hstep _ 1

/-- Claim C5: promotion of a missing session fails with Not-Found; a
successful promotion removes the session from the temporary store, so a
second promotion of the same id fails with Not-Found; and the promoted
entry lives under `/persons/database_<n>` for an allocated index `n ≥ 1`,
not under the original session id. -/
theorem C5_promotion (fs : FS) (sid : String) (hsid : plainSeg sid = true) :
    (fs.pexists (TEMP_ROOT ++ [sid]) = false →
      confirm_session fs (some sid) = (fs, .error ⟨404, "Session not found"⟩)) ∧
    (∀ fs2 r, confirm_session fs (some sid) = (fs2, .ok r) →
      fs2.pexists (TEMP_ROOT ++ [sid]) = false ∧
      confirm_session fs2 (some sid) = (fs2, .error ⟨404, "Session not found"⟩) ∧
      ∃ n : Int, 1 ≤ n ∧ r = "/persons/database_" ++ intStr n) := by
  have hfalsy : falsy (some sid) = false := by
    simp [falsy, (plainSeg_spec sid hsid).2.1]
  have hj : pjoin TEMP_ROOT sid = TEMP_ROOT ++ [sid] := plain_pjoin _ _ hsid
  have hr : resolve (TEMP_ROOT ++ [sid]) = TEMP_ROOT ++ [sid] :=
    resolve_fixed_plain _ _ (by decide) (by
      intro x hx
      simp only [List.mem_singleton] at hx
      rw [hx]
      exact hsid)
  have h404 : ∀ g : FS, g.pexists (TEMP_ROOT ++ [sid]) = false →
      confirm_session g (some sid) = (g, .error ⟨404, "Session not found"⟩) := by
    intro g hne
    unfold confirm_session
    rw [hfalsy]
    simp only [Bool.false_eq_true, if_false, Option.getD_some]
    rw [hj, hne]
    simp
  refine ⟨h404 fs, ?_⟩
  intro fs2 r h
  simp only [confirm_session, Option.getD_some, hfalsy, Bool.false_eq_true, if_false] at h
  rw [hj] at h
  split at h
  · exact absurd (congrArg Prod.snd h) (by simp)
  · split at h
    · exact absurd (congrArg Prod.snd h) (by simp)
    · rename_i fs1 hmk
      split at h
      · exact absurd (congrArg Prod.snd h) (by simp)
      · rename_i fsR hsm
        rw [Prod.mk.injEq] at h
        obtain ⟨hfs2, hrr⟩ := h
        have hrval := Except.ok.inj hrr
        -- characterize the renamed filesystem
        have hjdb : pjoin PERSONS_DB ("database_" ++ intStr (dbNextIdx fs1)) =
            PERSONS_DB ++ ["database_" ++ intStr (dbNextIdx fs1)] :=
          plain_pjoin _ _ (db_plain _)
        have hrdb : resolve (PERSONS_DB ++ ["database_" ++ intStr (dbNextIdx fs1)]) =
            PERSONS_DB ++ ["database_" ++ intStr (dbNextIdx fs1)] :=
          resolve_fixed_plain _ _ (by decide) (by
            intro x hx
            simp only [List.mem_singleton] at hx
            rw [hx]
            exact db_plain _)
        have heq := shutilMove_eq fs1 fsR _ _ hsm
        rw [hr, hjdb, hrdb] at heq
        have hdpfx : (if fs1.isDir (PERSONS_DB ++ ["database_" ++ intStr (dbNextIdx fs1)]) = true
            then PERSONS_DB ++ ["database_" ++ intStr (dbNextIdx fs1)] ++
              [(TEMP_ROOT ++ [sid]).getLastD ""]
            else PERSONS_DB ++ ["database_" ++ intStr (dbNextIdx fs1)]).isPrefixOf
            (TEMP_ROOT ++ [sid]) = false := by
          split
          · rw [List.append_assoc]
            exact persons_not_pfx_temp _ _
          · exact persons_not_pfx_temp _ _
        have hgone : fsR.pexists (TEMP_ROOT ++ [sid]) = false := by
          rw [pexists_eq, hr, heq]
          rw [rename_file_gone fs1 _ _ _ (pfx_refl _) hdpfx,
            rename_isDir_gone fs1 _ _ _ (pfx_refl _) hdpfx]
          rfl
        rw [← hfs2]
        exact ⟨hgone, h404 fsR hgone, dbNextIdx fs1, dbNextIdx_ge_one fs1, hrval.symm⟩

/-- Witness for C5: promoting the demo session "s1" yields
`/persons/database_1`; afterwards "s1" is gone from the temporary store
and a second promotion (as well as promotion of an absent session) fails
with Not-Found. -/
theorem C5_promotion_witness :
    (confirm_session fsDemo (some "s1")).1.pexists (TEMP_ROOT ++ ["s1"]) = false ∧
    confirm_session (confirm_session fsDemo (some "s1")).1 (some "s1") =
      ((confirm_session fsDemo (some "s1")).1, .error ⟨404, "Session not found"⟩) ∧
    (∃ n : Int, 1 ≤ n ∧ "/persons/database_1" = "/persons/database_" ++ intStr n) ∧
    confirm_session (fsDemo.rmtree (TEMP_ROOT ++ ["s1"])) (some "s1") =
      (fsDemo.rmtree (TEMP_ROOT ++ ["s1"]), .error ⟨404, "Session not found"⟩) := by
  have h2 := (C5_promotion fsDemo "s1" (by decide)).2
    (confirm_session fsDemo (some "s1")).1 "/persons/database_1" (by decide)
  exact ⟨h2.1, h2.2.1, h2.2.2,
    (C5_promotion (fsDemo.rmtree (TEMP_ROOT ++ ["s1"])) "s1" (by decide)).1 (by decide)⟩

/-- Interpretation of "a group named person_<n>": the name starts with
"person_" and its field after the first underscore denotes the
(nonnegative) integer n. -/
def personIdx? (nm : String) : Option Nat :=
  if startsW "person_" nm then
    match pyInt? ((pySplitU nm).getD 1 "") with
    | some n => if 0 ≤ n then some n.toNat else none
    | none => none
  else none

/-- The index the claim specifies for auto-naming: one greater than the
maximum n over existing groups named person_<n>, and 0 when no such group
exists. -/
def specNextIdx (groupNames : List String) : Nat :=
  if (groupNames.filterMap personIdx?).isEmpty then 0
  else (groupNames.filterMap personIdx?).foldr max 0 + 1

theorem filter_and (l : List String) (p q : String → Bool) :
    l.filter (fun a => p a && q a) = (l.filter q).filter p := by
  induction l with
  | nil => rfl
  | cons a t ih =>
    cases hp : p a <;> cases hq : q a
    · rw [List.filter_cons_of_neg (by simp [hp, hq]),
        List.filter_cons_of_neg (by simp [hq]), ih]
    · rw [List.filter_cons_of_neg (by simp [hp, hq]),
        List.filter_cons_of_pos (by simp [hq]),
        List.filter_cons_of_neg (by simp [hp]), ih]
    · rw [List.filter_cons_of_neg (by simp [hp, hq]),
        List.filter_cons_of_neg (by simp [hq]), ih]
    · rw [List.filter_cons_of_pos (by simp [hp, hq]),
        List.filter_cons_of_pos (by simp [hq]),
        List.filter_cons_of_pos (by simp [hp]), ih]

theorem fold_step_filterMap (l : List String) (acc : Int) :
    l.foldl (fun idx e => match pyInt? ((pySplitU e).getD 1 "") with
      | some n => max idx (n + 1) | none => idx) acc =
    (l.filterMap (fun e => pyInt? ((pySplitU e).getD 1 ""))).foldl
      (fun idx n => max idx (n + 1)) acc := by
  induction l generalizing acc with
  | nil => rfl
  | cons e t ih =>
    simp only [List.foldl_cons, List.filterMap_cons]
    cases hp : pyInt? ((pySplitU e).getD 1 "") with
    | none => simp only [hp]; rw [ih]
    | some n => simp only [hp, List.foldl_cons]; rw [ih]

theorem fold2_max (ms : List Int) (acc : Int) (h : 0 ≤ acc) :
    ms.foldl (fun idx n => max idx (n + 1)) acc =
      max acc (ms.foldr (fun n b => max (n + 1) b) 0) := by
  induction ms generalizing acc with
  | nil =>
    simp only [List.foldl_nil, List.foldr_nil]
    exact (max_eq_left h).symm
  | cons n t ih =>
    simp only [List.foldl_cons, List.foldr_cons]
    rw [ih (max acc (n + 1)) (le_trans h (le_max_left _ _))]
    rw [max_assoc]

theorem int_max_zero_distrib (b c : Int) : max 0 (max b c) = max (max 0 b) (max 0 c) := by
  rcases le_total b c with h | h
  · rw [max_eq_right h, max_eq_right (max_le_max (le_refl (0:Int)) h)]
  · rw [max_eq_left h, max_eq_left (max_le_max (le_refl (0:Int)) h)]

theorem int_nat_fold (ms : List Int) :
    max 0 (ms.foldr (fun n b => max (n + 1) b) 0) =
      (((ms.filterMap (fun n => if 0 ≤ n then some n.toNat else none)).foldr
        (fun n b => max (n + 1) b) 0 : Nat) : Int) := by
  induction ms with
  | nil => rfl
  | cons n t ih =>
    simp only [List.foldr_cons, List.filterMap_cons]
    by_cases hn : 0 ≤ n
    · rw [if_pos hn]
      simp only [List.foldr_cons]
      generalize hG : (t.filterMap (fun n => if 0 ≤ n then some n.toNat else none)).foldr
        (fun n b => max (n + 1) b) 0 = G at ih ⊢
      rw [int_max_zero_distrib, ih, Nat.cast_max (n.toNat + 1) G,
        max_eq_right (by omega : (0:Int) ≤ n + 1)]
      rw [Nat.cast_add, Nat.cast_one, Int.toNat_of_nonneg hn]
    · rw [if_neg hn]
      generalize hG : (t.filterMap (fun n => if 0 ≤ n then some n.toNat else none)).foldr
        (fun n b => max (n + 1) b) 0 = G at ih ⊢
      rw [int_max_zero_distrib, ih, max_eq_left (by omega : n + 1 ≤ (0:Int))]
      exact max_eq_right (by positivity)

theorem nat_fold_spec (ns : List Nat) :
    ns.foldr (fun n b => max (n + 1) b) 0 =
      (if ns.isEmpty then 0 else ns.foldr max 0 + 1) := by
  induction ns with
  | nil => rfl
  | cons a t ih =>
    cases t with
    | nil =>
      simp only [List.foldr_cons, List.foldr_nil, List.isEmpty_cons, Bool.false_eq_true,
        if_false]
      rw [Nat.max_zero, Nat.max_zero]
    | cons b u =>
      simp only [List.foldr_cons, List.isEmpty_cons, Bool.false_eq_true, if_false] at ih ⊢
      rw [ih]
      exact Nat.succ_max_succ a _

theorem personIdx_startsW (l : List String) :
    l.filterMap personIdx? = (l.filter (fun e => startsW "person_" e)).filterMap personIdx? := by
  induction l with
  | nil => rfl
  | cons e t ih =>
    simp only [List.filterMap_cons, List.filter_cons]
    cases hs : startsW "person_" e
    · simp only [Bool.false_eq_true, if_false]
      rw [show personIdx? e = none by unfold personIdx?; rw [hs]; rfl]
      exact ih
    · simp only [if_true]
      rw [List.filterMap_cons, ih]

theorem personIdx_of_startsW (l : List String) (hall : ∀ e ∈ l, startsW "person_" e = true) :
    l.filterMap personIdx? =
      (l.filterMap (fun e => pyInt? ((pySplitU e).getD 1 ""))).filterMap
        (fun n => if 0 ≤ n then some n.toNat else none) := by
  rw [List.filterMap_filterMap]
  induction l with
  | nil => rfl
  | cons e t ih =>
    simp only [List.filterMap_cons]
    rw [show personIdx? e = (pyInt? ((pySplitU e).getD 1 "")).bind
        (fun n => if 0 ≤ n then some n.toNat else none) by
      unfold personIdx?
      rw [hall e (List.mem_cons_self e t)]
      cases pyInt? ((pySplitU e).getD 1 "") <;> rfl]
    cases (pyInt? ((pySplitU e).getD 1 "")).bind
        (fun n => if 0 ≤ n then some n.toNat else none) with
    | none => exact ih (fun x hx => hall x (List.mem_cons_of_mem e hx))
    | some k => rw [ih (fun x hx => hall x (List.mem_cons_of_mem e hx))]

theorem filter_and2 (l : List String) (p q : String → Bool) :
    l.filter (fun a => p a && q a) = (l.filter p).filter q := by
  induction l with
  | nil => rfl
  | cons a t ih =>
    cases hp : p a <;> cases hq : q a
    · rw [List.filter_cons_of_neg (by simp [hp, hq]),
        List.filter_cons_of_neg (by simp [hp]), ih]
    · rw [List.filter_cons_of_neg (by simp [hp, hq]),
        List.filter_cons_of_neg (by simp [hp]), ih]
    · rw [List.filter_cons_of_neg (by simp [hp, hq]),
        List.filter_cons_of_pos (by simp [hp]),
        List.filter_cons_of_neg (by simp [hq]), ih]
    · rw [List.filter_cons_of_pos (by simp [hp, hq]),
        List.filter_cons_of_pos (by simp [hp]),
        List.filter_cons_of_pos (by simp [hq]), ih]

theorem intStr_natCast (k : Nat) : intStr (k : Int) = natStr k := by
  unfold intStr
  rw [if_neg (by omega)]
  rw [Int.toNat_natCast]

theorem autoName_spec (fs : FS) (sd : PathSegs) :
    autoName fs sd = "person_" ++ natStr (specNextIdx
      ((fs.children sd).filter (fun nm => fs.isDir (resolve sd ++ [nm])))) := by
  simp only [autoName]
  rw [filter_and2 (fs.children sd) (fun nm => fs.isDir (resolve sd ++ [nm]))
    (fun nm => startsW "person_" nm)]
  have hall : ∀ e ∈ ((fs.children sd).filter (fun nm => fs.isDir (resolve sd ++ [nm]))).filter
      (fun nm => startsW "person_" nm), startsW "person_" e = true :=
    fun e he => (List.mem_filter.mp he).2
  rw [fold_step_filterMap, fold2_max _ _ (le_refl 0), int_nat_fold,
    ← personIdx_of_startsW _ hall, ← personIdx_startsW, nat_fold_spec, intStr_natCast]
  rfl

theorem person_plain (k : Nat) : plainSeg ("person_" ++ natStr k) = true := by
  have hne : ∀ t : String, t.data.headD '#' ≠ 'p' → "person_" ++ natStr k ≠ t := by
    intro t ht he
    apply ht
    rw [← he]
    rfl
  unfold plainSeg
  simp only [Bool.and_eq_true, bne_iff_ne]
  refine ⟨⟨⟨?_, hne "" (by decide)⟩, hne "." (by decide)⟩, hne ".." (by decide)⟩
  rw [show (!("person_" ++ natStr k).data.contains '/') = true ↔
    ¬ (("person_" ++ natStr k).data.contains '/' = true) by
      cases ("person_" ++ natStr k).data.contains '/' <;> simp]
  intro hc
  have hm := List.elem_iff.mp hc
  rw [String.data_append] at hm
  rcases List.mem_append.mp hm with h1 | h2
  · revert h1
    decide
  · exact natDigits_no_slash k h2

theorem ancestors_snoc (p : PathSegs) (x : String) :
    ancestors (p ++ [x]) = ancestors p ++ [p ++ [x]] := by
  induction p with
  | nil => rfl
  | cons s t ih =>
    show [] :: (ancestors (t ++ [x])).map (fun q => s :: q) = _
    rw [ih]
    simp [ancestors]

/-- The names of the existing groups (directory children) of a session. -/
def sessionGroups (fs : FS) (sid : String) : List String :=
  (fs.children (TEMP_ROOT ++ [sid])).filter (fun nm => fs.isDir (TEMP_ROOT ++ [sid, nm]))

/-- Claim C6: an auto-named create-group request on an existing session
chooses the name `person_<k>` where `k` is one greater than the maximum
index of the existing `person_<n>` groups (0 when there is none); it fails
with a Conflict error, mutating nothing, when the chosen path already
exists, and otherwise creates the group directory and returns its name. -/
theorem C6_auto_group_name (fs : FS) (sid : String) (hsid : plainSeg sid = true)
    (hses : fs.pexists (pjoin TEMP_ROOT sid) = true)
    (hanc : (ancestors (TEMP_ROOT ++ [sid])).all (fun q => (fs.file? q).isNone) = true) :
    (fs.pexists (TEMP_ROOT ++ [sid,
        "person_" ++ natStr (specNextIdx (sessionGroups fs sid))]) = true →
      add_person fs (some sid) none = (fs, .error ⟨400, "Person folder exists"⟩)) ∧
    (fs.pexists (TEMP_ROOT ++ [sid,
        "person_" ++ natStr (specNextIdx (sessionGroups fs sid))]) = false →
      (add_person fs (some sid) none).2 =
        .ok ("person_" ++ natStr (specNextIdx (sessionGroups fs sid))) ∧
      (add_person fs (some sid) none).1.isDir (TEMP_ROOT ++ [sid,
        "person_" ++ natStr (specNextIdx (sessionGroups fs sid))]) = true) := by
  have hfalsy : falsy (some sid) = false := by
    simp [falsy, (plainSeg_spec sid hsid).2.1]
  have hj : pjoin TEMP_ROOT sid = TEMP_ROOT ++ [sid] := plain_pjoin _ _ hsid
  have hr : resolve (TEMP_ROOT ++ [sid]) = TEMP_ROOT ++ [sid] :=
    resolve_fixed_plain _ _ (by decide) (by
      intro x hx
      simp only [List.mem_singleton] at hx
      rw [hx]
      exact hsid)
  have hauto : autoName fs (pjoin TEMP_ROOT sid) =
      "person_" ++ natStr (specNextIdx (sessionGroups fs sid)) := by
    rw [autoName_spec, hj, hr]
    unfold sessionGroups
    simp only [List.append_assoc, List.cons_append, List.nil_append]
  set pname := "person_" ++ natStr (specNextIdx (sessionGroups fs sid)) with hpname
  have hjp : pjoin (pjoin TEMP_ROOT sid) pname = TEMP_ROOT ++ [sid, pname] := by
    rw [hj, plain_pjoin _ _ (hpname ▸ person_plain _)]
    simp [List.append_assoc]
  have hrp : resolve (TEMP_ROOT ++ [sid, pname]) = TEMP_ROOT ++ [sid, pname] :=
    resolve_fixed_plain _ _ (by decide) (by
      intro x hx
      simp only [List.mem_cons, List.not_mem_nil, or_false] at hx
      rcases hx with rfl | rfl
      · exact hsid
      · exact hpname ▸ person_plain _)
  constructor
  · intro hex
    unfold add_person
    rw [hfalsy]
    simp only [Bool.false_eq_true, if_false, Option.getD_some]
    rw [hses]
    simp only [Bool.not_true, Bool.false_eq_true, if_false]
    rw [show (!falsy none) = false from rfl]
    simp only [Bool.false_eq_true, if_false]
    rw [hauto, hjp, hex]
    simp
  · intro hfree
    have hmk : fs.mkdirp (TEMP_ROOT ++ [sid, pname]) = some { fs with
        dirs := (ancestors (TEMP_ROOT ++ [sid, pname])).filter
          (fun q => !fs.dirs.contains q) ++ fs.dirs } := by
      have hall : (ancestors (resolve (TEMP_ROOT ++ [sid, pname]))).all
          (fun q => (fs.file? q).isNone) = true := by
        rw [hrp, show TEMP_ROOT ++ [sid, pname] = (TEMP_ROOT ++ [sid]) ++ [pname] by simp,
          ancestors_snoc, List.all_append]
        rw [hanc]
        simp only [Bool.true_and, List.all_cons, List.all_nil, Bool.and_true]
        rw [show (TEMP_ROOT ++ [sid]) ++ [pname] = TEMP_ROOT ++ [sid, pname] by simp]
        have := hfree
        rw [pexists_eq, hrp] at this
        rcases Bool.or_eq_false_iff.mp this with ⟨h1, _⟩
        rw [Option.isNone_iff_eq_none]
        exact Option.not_isSome_iff_eq_none.mp (by rw [h1]; exact Bool.false_ne_true)
      have hh := mkdirp_some_of_all fs (TEMP_ROOT ++ [sid, pname]) hall
      rw [hrp] at hh
      exact hh
    unfold add_person
    rw [hfalsy]
    simp only [Bool.false_eq_true, if_false, Option.getD_some]
    rw [hses]
    simp only [Bool.not_true, Bool.false_eq_true, if_false]
    rw [show (!falsy none) = false from rfl]
    simp only [Bool.false_eq_true, if_false]
    rw [hauto, hjp, hfree]
    simp only [Bool.false_eq_true, if_false]
    rw [hmk]
    refine ⟨rfl, ?_⟩
    have := mkdirp_isDir_self fs _ _ hmk
    rw [hrp] at this
    exact this

/-- Witness for C6, the spec's end-to-end scenario: in the demo session
(whose only numbered group is "person_0") the auto-named request creates
"person_1". -/
theorem C6_auto_group_name_witness :
    (add_person fsDemo (some "s1") none).2 =
      .ok ("person_" ++ natStr (specNextIdx (sessionGroups fsDemo "s1"))) ∧
    "person_" ++ natStr (specNextIdx (sessionGroups fsDemo "s1")) = "person_1" ∧
    (add_person fsDemo (some "s1") none).1.isDir (TEMP_ROOT ++ ["s1", "person_1"]) = true := by
  have h := (C6_auto_group_name fsDemo "s1" (by decide) (by decide) (by decide)).2 (by decide)
  refine ⟨h.1, by decide, ?_⟩
  have h2 := h.2
  rw [show "person_" ++ natStr (specNextIdx (sessionGroups fsDemo "s1")) = "person_1"
    by decide] at h2
  exact h2

/-- Sanitization as the claim words it: every whitespace character of the
supplied name replaced by an underscore (modelled from the spec sentence
"explicit name is sanitized (whitespace→underscore)"). -/
def claimSanitize (s : String) : String :=
  String.mk (s.data.map (fun c => if c.isWhitespace then '_' else c))

/-- Claim C9 (amended): for an explicit name, the created group directory
is named `pySanitize name`, i.e. the name stripped of surrounding
whitespace with each interior space character (U+0020) replaced by an
underscore — not with every whitespace character replaced. -/
theorem C9_explicit_name (fs : FS) (sid name : String) (hsid : plainSeg sid = true)
    (hname : name ≠ "") (hpl : plainSeg (pySanitize name) = true)
    (hses : fs.pexists (pjoin TEMP_ROOT sid) = true)
    (hanc : (ancestors (TEMP_ROOT ++ [sid])).all (fun q => (fs.file? q).isNone) = true)
    (hfree : fs.pexists (TEMP_ROOT ++ [sid, pySanitize name]) = false) :
    (add_person fs (some sid) (some name)).2 = .ok (pySanitize name) ∧
    (add_person fs (some sid) (some name)).1.isDir
      (TEMP_ROOT ++ [sid, pySanitize name]) = true := by
  have hfalsy : falsy (some sid) = false := by
    simp [falsy, (plainSeg_spec sid hsid).2.1]
  have hfn : (!falsy (some name)) = true := by
    simp [falsy, hname]
  have hj : pjoin TEMP_ROOT sid = TEMP_ROOT ++ [sid] := plain_pjoin _ _ hsid
  have hjp : pjoin (pjoin TEMP_ROOT sid) (pySanitize name) =
      TEMP_ROOT ++ [sid, pySanitize name] := by
    rw [hj, plain_pjoin _ _ hpl]
    simp [List.append_assoc]
  have hrp : resolve (TEMP_ROOT ++ [sid, pySanitize name]) =
      TEMP_ROOT ++ [sid, pySanitize name] :=
    resolve_fixed_plain _ _ (by decide) (by
      intro x hx
      simp only [List.mem_cons, List.not_mem_nil, or_false] at hx
      rcases hx with rfl | rfl
      · exact hsid
      · exact hpl)
  have hmk : fs.mkdirp (TEMP_ROOT ++ [sid, pySanitize name]) = some { fs with
      dirs := (ancestors (TEMP_ROOT ++ [sid, pySanitize name])).filter
        (fun q => !fs.dirs.contains q) ++ fs.dirs } := by
    have hall : (ancestors (resolve (TEMP_ROOT ++ [sid, pySanitize name]))).all
        (fun q => (fs.file? q).isNone) = true := by
      rw [hrp, show TEMP_ROOT ++ [sid, pySanitize name] =
          (TEMP_ROOT ++ [sid]) ++ [pySanitize name] by simp,
        ancestors_snoc, List.all_append]
      rw [hanc]
      simp only [Bool.true_and, List.all_cons, List.all_nil, Bool.and_true]
      rw [show (TEMP_ROOT ++ [sid]) ++ [pySanitize name] =
        TEMP_ROOT ++ [sid, pySanitize name] by simp]
      have hh := hfree
      rw [pexists_eq, hrp] at hh
      rcases Bool.or_eq_false_iff.mp hh with ⟨h1, _⟩
      rw [Option.isNone_iff_eq_none]
      exact Option.not_isSome_iff_eq_none.mp (by rw [h1]; exact Bool.false_ne_true)
    have hh := mkdirp_some_of_all fs (TEMP_ROOT ++ [sid, pySanitize name]) hall
    rw [hrp] at hh
    exact hh
  unfold add_person
  rw [hfalsy]
  simp only [Bool.false_eq_true, if_false, Option.getD_some]
  rw [hses]
  simp only [Bool.not_true, Bool.false_eq_true, if_false]
  rw [hfn]
  simp only [if_true]
  rw [hjp, hfree]
  simp only [Bool.false_eq_true, if_false]
  rw [hmk]
  refine ⟨rfl, ?_⟩
  have hh := mkdirp_isDir_self fs _ _ hmk
  rw [hrp] at hh
  exact hh

/-- Claim C9 counterexample: the code's sanitization is `strip()` followed
by replacing space characters only — a tab survives.  Supplying the name
containing a tab creates a directory whose name still contains the tab,
while the claim's "whitespace replaced by underscores" predicts an
underscore. -/
theorem C9_tab_counterexample :
    (add_person fsDemo (some "s1") (some "a\tb")).2 = .ok "a\tb" ∧
    claimSanitize "a\tb" = "a_b" ∧
    "a\tb" ≠ "a_b" ∧
    (add_person fsDemo (some "s1") (some "a\tb")).1.isDir
      (TEMP_ROOT ++ ["s1", "a\tb"]) = true := by
  decide

/-- Witness for the amended C9: the name " a b " is stripped and its
interior space becomes an underscore, creating the group "a_b". -/
theorem C9_explicit_name_witness :
    (add_person fsDemo (some "s1") (some " a b ")).2 = .ok "a_b" ∧
    (add_person fsDemo (some "s1") (some " a b ")).1.isDir
      (TEMP_ROOT ++ ["s1", "a_b"]) = true := by
  have h := C9_explicit_name fsDemo "s1" " a b " (by decide) (by decide) (by decide)
    (by decide) (by decide) (by decide)
  have hs : pySanitize " a b " = "a_b" := by decide
  refine ⟨h.1.trans (by rw [hs]), ?_⟩
  have h2 := h.2
  rw [hs] at h2
  exact h2

/-- Claim C10: a successful session listing mentions only files that lie
inside a group subdirectory of the session, each under the URI
`/temp/<session>/<group>/<file>` for a file that exists there; in a sane
filesystem (no path is both a file and a directory) no listed image is a
subdirectory, and files stored directly at the session root never appear
(every listed URI carries a group component). -/
theorem C10_listing (fs : FS) (sid : String) (out : List (String × List String))
    (hsid : plainSeg sid = true)
    (hwf : fs.dirs.all (fun d => (fs.file? d).isNone) = true)
    (hls : list_session_persons fs sid = .ok out) :
    ∀ g imgs, (g, imgs) ∈ out →
      fs.isDir (TEMP_ROOT ++ [sid, g]) = true ∧
      ∀ u ∈ imgs, ∃ f, u = "/temp/" ++ sid ++ "/" ++ g ++ "/" ++ f ∧
        (fs.file? (TEMP_ROOT ++ [sid, g, f])).isSome = true ∧
        fs.isDir (TEMP_ROOT ++ [sid, g, f]) = false := by
  have hj : pjoin TEMP_ROOT sid = TEMP_ROOT ++ [sid] := plain_pjoin _ _ hsid
  have hr : resolve (TEMP_ROOT ++ [sid]) = TEMP_ROOT ++ [sid] :=
    resolve_fixed_plain _ _ (by decide) (by
      intro x hx
      simp only [List.mem_singleton] at hx
      rw [hx]
      exact hsid)
  simp only [list_session_persons, hj, hr] at hls
  split at hls
  · cases hls
  · split at hls
    · cases hls
    · have hout := Except.ok.inj hls
      intro g imgs hmem
      rw [← hout] at hmem
      obtain ⟨g0, hg0, hfg0⟩ := List.mem_filterMap.mp hmem
      by_cases hdir : fs.isDir (TEMP_ROOT ++ [sid] ++ [g0]) = true
      · rw [if_pos hdir] at hfg0
        obtain ⟨hgeq, himgs⟩ := Prod.mk.injEq .. ▸ Option.some.inj hfg0
        rw [← hgeq]
        constructor
        · rw [show TEMP_ROOT ++ [sid, g0] = TEMP_ROOT ++ [sid] ++ [g0] by simp]
          exact hdir
        · intro u hu
          rw [← himgs] at hu
          obtain ⟨f, hf, hff⟩ := List.mem_filterMap.mp hu
          by_cases hfile : (fs.file? (TEMP_ROOT ++ [sid] ++ [g0, f])).isSome = true
          · rw [if_pos hfile] at hff
            refine ⟨f, (Option.some.inj hff).symm, ?_, ?_⟩
            · rw [show TEMP_ROOT ++ [sid, g0, f] = TEMP_ROOT ++ [sid] ++ [g0, f] by simp]
              exact hfile
            · rw [show TEMP_ROOT ++ [sid, g0, f] = TEMP_ROOT ++ [sid] ++ [g0, f] by simp]
              cases hd : fs.isDir (TEMP_ROOT ++ [sid] ++ [g0, f])
              · rfl
              · have hm := (contains_true_iff _ _).mp hd
                have hn := List.all_eq_true.mp hwf _ hm
                rw [Option.isNone_iff_eq_none] at hn
                rw [hn] at hfile
                cases hfile
          · rw [if_neg hfile] at hff
            cases hff
      · rw [if_neg hdir] at hfg0
        cases hfg0

/-- Witness for C10 on the demo session (which has a root `frame_0.jpg`
dump, the snapshot, and a subdirectory inside `person_0`, none of which
are listed): the listed group "person_0" is a directory and its listed
image `a.jpg` is an existing file, not a directory. -/
theorem C10_listing_witness :
    fsDemo.isDir (TEMP_ROOT ++ ["s1", "person_0"]) = true ∧
    (∃ f, "/temp/s1/person_0/a.jpg" = "/temp/" ++ "s1" ++ "/" ++ "person_0" ++ "/" ++ f ∧
      (fsDemo.file? (TEMP_ROOT ++ ["s1", "person_0", f])).isSome = true ∧
      fsDemo.isDir (TEMP_ROOT ++ ["s1", "person_0", f]) = false) := by
  have h := C10_listing fsDemo "s1"
    [("g2", ["/temp/s1/g2/a.jpg", "/temp/s1/g2/a_ffffff.jpg"]),
     ("person_0", ["/temp/s1/person_0/a.jpg", "/temp/s1/person_0/b.jpg"])]
    (by decide) (by decide) (by decide)
  have h2 := h "person_0" ["/temp/s1/person_0/a.jpg", "/temp/s1/person_0/b.jpg"] (by decide)
  exact ⟨h2.1, h2.2 "/temp/s1/person_0/a.jpg" (by decide)⟩

theorem not_contains_of_not_mem (l : List Char) (c : Char) (h : c ∉ l) :
    (!l.contains c) = true := by
  cases hc : l.contains c
  · rfl
  · exact absurd (List.elem_iff.mp hc) h

theorem plainSeg_intro (s : String) (h1 : '/' ∉ s.data) (h2 : s.data.headD '.' ≠ '.') :
    plainSeg s = true := by
  have hne : ∀ t : String, t.data.headD '.' = '.' → s ≠ t := by
    intro t ht he
    rw [he] at h2
    exact h2 ht
  unfold plainSeg
  simp only [Bool.and_eq_true, bne_iff_ne]
  exact ⟨⟨⟨not_contains_of_not_mem _ _ h1, hne "" rfl⟩, hne "." rfl⟩, hne ".." rfl⟩

theorem no_slash_append (a b : String) (ha : '/' ∉ a.data) (hb : '/' ∉ b.data) :
    '/' ∉ (a ++ b).data := by
  rw [String.data_append]
  intro hm
  rcases List.mem_append.mp hm with h | h
  · exact ha h
  · exact hb h

theorem natStr_no_slash (n : Nat) : '/' ∉ (natStr n).data := natDigits_no_slash n

theorem ne_of_length (s t : String) (h : s.length ≠ t.length) : s ≠ t :=
  fun he => h (congrArg String.length he)

theorem plain_suffix (s suf : String) (hs : plainSeg s = true)
    (hsuf : '/' ∉ suf.data) (hlen : 2 ≤ suf.length) : plainSeg (s ++ suf) = true := by
  obtain ⟨h1, h2, _, _⟩ := plainSeg_spec s hs
  have hslen : 1 ≤ s.length :=
    List.length_pos.mpr (data_ne_nil_of_ne_empty s h2)
  have l0 : ("" : String).length = 0 := rfl
  have l1 : ("." : String).length = 1 := rfl
  have l2 : (".." : String).length = 2 := rfl
  unfold plainSeg
  simp only [Bool.and_eq_true, bne_iff_ne]
  refine ⟨⟨⟨not_contains_of_not_mem _ _ (no_slash_append s suf h1 hsuf),
    ne_of_length _ _ (by rw [String.length_append, l0]; omega)⟩,
    ne_of_length _ _ (by rw [String.length_append, l1]; omega)⟩,
    ne_of_length _ _ (by rw [String.length_append, l2]; omega)⟩

theorem person_plain_int (i : Int) : plainSeg ("person_" ++ intStr i) = true :=
  plainSeg_intro _ (no_slash_append _ _ (by decide) (intStr_no_slash i)) (show ('p' : Char) ≠ '.' by decide)

theorem frame_plain (fi : Nat) : plainSeg ("frame_" ++ natStr fi ++ ".jpg") = true :=
  plainSeg_intro _
    (no_slash_append _ _ (no_slash_append _ _ (by decide) (natStr_no_slash fi)) (by decide))
    (show ('f' : Char) ≠ '.' by decide)

theorem frame_ne_ann (x : String) : "frame_" ++ x ≠ "annotation.json" := by
  intro he
  have hh : ("frame_" ++ x).data.headD ' ' = "annotation.json".data.headD ' ' := by rw [he]
  have hh2 : ('f' : Char) = 'a' := hh
  exact absurd hh2 (by decide)

/-!  Pipeline lemmas for the ingestion claims: resolved shapes of the
paths the pipeline writes, the snapshot-count invariant of the detection
loops, and the shape of `upload_video` in each of its outcomes. -/

theorem ne_of_listlen (l m : PathSegs) (h : l.length ≠ m.length) : l ≠ m :=
  fun he => h (congrArg List.length he)

theorem fback_plain (fi pid : Nat) :
    plainSeg ("f" ++ natStr fi ++ "_p" ++ natStr pid ++ ".jpg") = true :=
  plainSeg_intro _
    (no_slash_append _ _ (no_slash_append _ _ (no_slash_append _ _
      (no_slash_append _ _ (by decide) (natStr_no_slash fi)) (by decide))
      (natStr_no_slash pid)) (by decide))
    (show ('f' : Char) ≠ '.' by decide)

theorem ftrack_plain (fi : Nat) (tid : Int) :
    plainSeg ("f" ++ natStr fi ++ "_id" ++ intStr tid ++ ".jpg") = true :=
  plainSeg_intro _
    (no_slash_append _ _ (no_slash_append _ _ (no_slash_append _ _
      (no_slash_append _ _ (by decide) (natStr_no_slash fi)) (by decide))
      (intStr_no_slash tid)) (by decide))
    (show ('f' : Char) ≠ '.' by decide)

theorem resolve_temp1 (a : String) (ha : plainSeg a = true) :
    resolve (TEMP_ROOT ++ [a]) = TEMP_ROOT ++ [a] := by
  apply resolve_fixed_plain TEMP_ROOT [a] (by decide)
  intro x hx
  rw [List.mem_singleton] at hx
  subst hx
  exact ha

theorem resolve_temp2 (a b : String) (ha : plainSeg a = true) (hb : plainSeg b = true) :
    resolve (TEMP_ROOT ++ [a, b]) = TEMP_ROOT ++ [a, b] := by
  apply resolve_fixed_plain TEMP_ROOT [a, b] (by decide)
  intro x hx
  simp only [List.mem_cons, List.not_mem_nil, or_false] at hx
  rcases hx with rfl | rfl
  · exact ha
  · exact hb

theorem resolve_temp3 (a b c : String) (ha : plainSeg a = true) (hb : plainSeg b = true)
    (hc : plainSeg c = true) :
    resolve (TEMP_ROOT ++ [a, b, c]) = TEMP_ROOT ++ [a, b, c] := by
  apply resolve_fixed_plain TEMP_ROOT [a, b, c] (by decide)
  intro x hx
  simp only [List.mem_cons, List.not_mem_nil, or_false] at hx
  rcases hx with rfl | rfl | rfl
  · exact ha
  · exact hb
  · exact hc

theorem count_snoc_ne (l : List PathSegs) (r q : PathSegs) (h : r ≠ q) :
    (l ++ [r]).count q = l.count q := by
  rw [List.count_append]
  have h0 : ([r] : List PathSegs).count q = 0 := by
    rw [List.count_eq_zero]
    intro hm
    exact h (List.mem_singleton.mp hm).symm
  rw [h0, Nat.add_zero]

theorem count_snoc_eq (l : List PathSegs) (q : PathSegs) :
    (l ++ [q]).count q = l.count q + 1 := by
  rw [List.count_append]
  simp

theorem pst_write_log (st : PSt) (p : PathSegs) (c : String) :
    (st.write p c).log = st.log ++ [resolve p] := rfl

theorem pst_write_fs (st : PSt) (p : PathSegs) (c : String) :
    (st.write p c).fs = st.fs.write p c := rfl

theorem temp3_ne_ann (sid a b : String) :
    TEMP_ROOT ++ [sid, a, b] ≠ TEMP_ROOT ++ [sid, "annotation.json"] :=
  ne_of_listlen _ _ (by
    simp only [TEMP_ROOT, List.length_append, List.length_cons, List.length_nil]
    omega)

theorem frame2_ne_ann (sid : String) (fi : Nat) :
    TEMP_ROOT ++ [sid, "frame_" ++ natStr fi ++ ".jpg"] ≠
      TEMP_ROOT ++ [sid, "annotation.json"] := by
  intro he
  have h2 := (temp2_inj he).2
  rw [String.append_assoc] at h2
  exact frame_ne_ann (natStr fi ++ ".jpg") h2

theorem save_crop_count (sid sid2 pk fname crop : String) (st st2 : PSt)
    (m m2 : PersonMap) (hsid : plainSeg sid = true) (hpk : plainSeg pk = true)
    (hfn : plainSeg fname = true)
    (hs : save_crop_and_map (TEMP_ROOT ++ [sid]) sid2 st m pk crop fname = some (st2, m2)) :
    st2.log.count (TEMP_ROOT ++ [sid, "annotation.json"]) =
      st.log.count (TEMP_ROOT ++ [sid, "annotation.json"]) := by
  unfold save_crop_and_map at hs
  cases hmk : st.fs.mkdirp (pjoin (TEMP_ROOT ++ [sid]) pk) with
  | none =>
    rw [hmk] at hs
    exact Option.noConfusion hs
  | some fs2 =>
    rw [hmk] at hs
    simp only [Option.some.injEq, Prod.mk.injEq] at hs
    obtain ⟨h1, h2⟩ := hs
    subst h1
    show (st.log ++ [resolve (pjoin (pjoin (TEMP_ROOT ++ [sid]) pk) fname)]).count
        (TEMP_ROOT ++ [sid, "annotation.json"]) =
      st.log.count (TEMP_ROOT ++ [sid, "annotation.json"])
    rw [plain_pjoin _ fname hfn, plain_pjoin _ pk hpk]
    show (st.log ++ [resolve (TEMP_ROOT ++ [sid, pk, fname])]).count _ = _
    rw [resolve_temp3 sid pk fname hsid hpk hfn]
    exact count_snoc_ne _ _ _ (temp3_ne_ann sid pk fname)

theorem procTBoxes_count (sid sid2 : String) (fi : Nat) (hh ww : Int)
    (hsid : plainSeg sid = true) (bs : List TBox) :
    ∀ (st : PSt) (m : PersonMap),
      (procTBoxes (TEMP_ROOT ++ [sid]) sid2 fi hh ww st m bs).1.log.count
          (TEMP_ROOT ++ [sid, "annotation.json"]) =
        st.log.count (TEMP_ROOT ++ [sid, "annotation.json"]) := by
  induction bs with
  | nil => intro st m; rfl
  | cons b rest ih =>
    intro st m
    simp only [procTBoxes]
    split
    · exact ih st m
    · split
      · exact ih st m
      · split
        · rfl
        · rename_i st2 m2 heq
          rw [ih st2 m2]
          exact save_crop_count sid sid2 _ _ _ st st2 m m2 hsid
            (person_plain_int b.tid) (ftrack_plain fi b.tid) heq

theorem procTrack_count (sid sid2 : String) (hsid : plainSeg sid = true)
    (items : List TItem) :
    ∀ (st : PSt) (m : PersonMap) (fi : Nat),
      (procTrack (TEMP_ROOT ++ [sid]) sid2 st m fi items).1.log.count
          (TEMP_ROOT ++ [sid, "annotation.json"]) =
        st.log.count (TEMP_ROOT ++ [sid, "annotation.json"]) := by
  induction items with
  | nil => intro st m fi; rfl
  | cons it rest ih =>
    intro st m fi
    cases it with
    | fatal => rfl
    | noFrame => exact ih st m (fi + 1)
    | frameErr => exact ih st m (fi + 1)
    | frame h w boxes =>
      simp only [procTrack]
      rw [ih _ _ (fi + 1)]
      exact procTBoxes_count sid sid2 fi h w hsid boxes st m

theorem procCBoxes_count (sid sid2 : String) (fi : Nat) (hh ww : Int)
    (hsid : plainSeg sid = true) (bs : List CBox) :
    ∀ (st : PSt) (m : PersonMap) (pid : Nat),
      (procCBoxes (TEMP_ROOT ++ [sid]) sid2 fi hh ww st m pid bs).1.log.count
          (TEMP_ROOT ++ [sid, "annotation.json"]) =
        st.log.count (TEMP_ROOT ++ [sid, "annotation.json"]) := by
  induction bs with
  | nil => intro st m pid; rfl
  | cons b rest ih =>
    intro st m pid
    simp only [procCBoxes]
    split
    · exact ih st m pid
    · split
      · exact ih st m pid
      · split
        · exact ih st m pid
        · split
          · rfl
          · rename_i st2 m2 heq
            rw [ih st2 m2 (pid + 1)]
            exact save_crop_count sid sid2 _ _ _ st st2 m m2 hsid
              (person_plain pid) (fback_plain fi pid) heq

theorem frame_write_count (sid : String) (hsid : plainSeg sid = true) (fi : Nat)
    (st : PSt) (c : String) :
    (st.write (pjoin (TEMP_ROOT ++ [sid]) ("frame_" ++ natStr fi ++ ".jpg")) c).log.count
        (TEMP_ROOT ++ [sid, "annotation.json"]) =
      st.log.count (TEMP_ROOT ++ [sid, "annotation.json"]) := by
  rw [pst_write_log, plain_pjoin _ _ (frame_plain fi)]
  show (st.log ++ [resolve (TEMP_ROOT ++ [sid, "frame_" ++ natStr fi ++ ".jpg"])]).count _ = _
  rw [resolve_temp2 sid _ hsid (frame_plain fi)]
  exact count_snoc_ne _ _ _ (frame2_ne_ann sid fi)

theorem procCFrames_count (sid sid2 : String) (hsid : plainSeg sid = true)
    (items : List CItem) :
    ∀ (st : PSt) (m : PersonMap) (fi pid : Nat),
      (procCFrames (TEMP_ROOT ++ [sid]) sid2 st m fi pid items).1.log.count
          (TEMP_ROOT ++ [sid, "annotation.json"]) =
        st.log.count (TEMP_ROOT ++ [sid, "annotation.json"]) := by
  induction items with
  | nil => intro st m fi pid; rfl
  | cons it rest ih =>
    intro st m fi pid
    cases it with
    | fatal => rfl
    | frame h w dets =>
      simp only [procCFrames]
      split
      · split
        · rename_i st2 heq
          have hc := procCBoxes_count sid sid2 fi h w hsid dets
            (st.write (pjoin (TEMP_ROOT ++ [sid]) ("frame_" ++ natStr fi ++ ".jpg"))
              (frameStr fi)) m pid
          rw [heq] at hc
          show st2.log.count (TEMP_ROOT ++ [sid, "annotation.json"]) = _
          rw [show ((st2, (none : Option (PersonMap × Nat))).1) = st2 from rfl] at hc
          rw [hc]
          exact frame_write_count sid hsid fi st (frameStr fi)
        · rename_i st2 m2 pid2 heq
          have hc := procCBoxes_count sid sid2 fi h w hsid dets
            (st.write (pjoin (TEMP_ROOT ++ [sid]) ("frame_" ++ natStr fi ++ ".jpg"))
              (frameStr fi)) m pid
          rw [heq] at hc
          rw [ih st2 m2 (fi + 1) pid2]
          show st2.log.count (TEMP_ROOT ++ [sid, "annotation.json"]) = _
          rw [show ((st2, some (m2, pid2)).1) = st2 from rfl] at hc
          rw [hc]
          exact frame_write_count sid hsid fi st (frameStr fi)
      · exact ih st m (fi + 1) pid

theorem runDetection_count (sid sid2 : String) (hsid : plainSeg sid = true)
    (st : PSt) (mode : AdMode) :
    (runDetection (TEMP_ROOT ++ [sid]) sid2 st mode).1.log.count
        (TEMP_ROOT ++ [sid, "annotation.json"]) =
      st.log.count (TEMP_ROOT ++ [sid, "annotation.json"]) := by
  cases mode with
  | tracking items => exact procTrack_count sid sid2 hsid items st [] 0
  | fallback items => exact procCFrames_count sid sid2 hsid items st [] 0 0

theorem all_filter_not {α : Type} (l : List α) (f : α → Bool) :
    (l.filter (fun x => !f x)).all (fun x => !f x) = true := by
  rw [List.all_eq_true]
  intro x hx
  exact (List.mem_filter.mp hx).2

theorem rmtree_files_all (fs : FS) (p : PathSegs) :
    (fs.rmtree p).files.all (fun e => !(resolve p).isPrefixOf e.1) = true :=
  all_filter_not fs.files (fun e => (resolve p).isPrefixOf e.1)

theorem rmtree_dirs_all (fs : FS) (p : PathSegs) :
    (fs.rmtree p).dirs.all (fun d => !(resolve p).isPrefixOf d) = true :=
  all_filter_not fs.dirs (fun d => (resolve p).isPrefixOf d)

theorem upload_video_unavail (fs : FS) (sid vid : String) (ad : Adapter) (fs2 : FS)
    (hmk : (fs.write (pjoin UPLOADS_DIR (sid ++ ".mp4")) vid).mkdirp
      (pjoin TEMP_ROOT sid) = some fs2)
    (hav : ad.available = false) :
    upload_video fs sid vid ad =
      (⟨fs2, [resolve (pjoin UPLOADS_DIR (sid ++ ".mp4"))]⟩, .ok (sid, [])) := by
  simp only [upload_video, PSt.write, List.nil_append]
  split
  · rename_i heq
    rw [hmk] at heq
    exact Option.noConfusion heq
  · rename_i fs2a heq
    rw [hmk] at heq
    injection heq with h2
    subst h2
    rw [hav]
    rfl

theorem upload_video_fatal (fs : FS) (sid vid : String) (ad : Adapter) (fs2 : FS)
    (st3 : PSt)
    (hmk : (fs.write (pjoin UPLOADS_DIR (sid ++ ".mp4")) vid).mkdirp
      (pjoin TEMP_ROOT sid) = some fs2)
    (hav : ad.available = true)
    (hr : runDetection (pjoin TEMP_ROOT sid) sid
        ⟨fs2, [resolve (pjoin UPLOADS_DIR (sid ++ ".mp4"))]⟩ ad.mode = (st3, none)) :
    upload_video fs sid vid ad =
      (⟨st3.fs.rmtree (pjoin TEMP_ROOT sid), st3.log⟩,
        .error ⟨500, "Processing failed"⟩) := by
  simp only [upload_video, PSt.write, List.nil_append]
  split
  · rename_i heq
    rw [hmk] at heq
    exact Option.noConfusion heq
  · rename_i fs2a heq
    rw [hmk] at heq
    injection heq with h2
    subst h2
    rw [hav]
    split
    · rename_i hc
      exact absurd hc (by decide)
    · split
      · rename_i st3a heq2
        rw [hr] at heq2
        injection heq2 with h3 h4
        subst h3
        rfl
      · rename_i st3a ma heq2
        rw [hr] at heq2
        injection heq2 with h3 h4
        exact Option.noConfusion h4

theorem upload_video_ok (fs : FS) (sid vid : String) (ad : Adapter) (fs2 : FS)
    (st3 : PSt) (m : PersonMap)
    (hmk : (fs.write (pjoin UPLOADS_DIR (sid ++ ".mp4")) vid).mkdirp
      (pjoin TEMP_ROOT sid) = some fs2)
    (hav : ad.available = true)
    (hr : runDetection (pjoin TEMP_ROOT sid) sid
        ⟨fs2, [resolve (pjoin UPLOADS_DIR (sid ++ ".mp4"))]⟩ ad.mode = (st3, some m)) :
    upload_video fs sid vid ad =
      (((st3.write (pjoin (pjoin TEMP_ROOT sid) "annotation.json") (jsonDumpMap m)).write
          (pjoin ANNOTATIONS_DIR (sid ++ "_summary.json")) (jsonSummary sid m)),
        .ok (sid, m)) := by
  simp only [upload_video, PSt.write, List.nil_append]
  split
  · rename_i heq
    rw [hmk] at heq
    exact Option.noConfusion heq
  · rename_i fs2a heq
    rw [hmk] at heq
    injection heq with h2
    subst h2
    rw [hav]
    split
    · rename_i hc
      exact absurd hc (by decide)
    · split
      · rename_i st3a heq2
        rw [hr] at heq2
        injection heq2 with h3 h4
        exact Option.noConfusion h4
      · rename_i st3a ma heq2
        rw [hr] at heq2
        injection heq2 with h3 h4
        injection h4 with h5
        subst h3
        subst h5
        rfl

theorem upload_video_oserr (fs : FS) (sid vid : String) (ad : Adapter)
    (hmk : (fs.write (pjoin UPLOADS_DIR (sid ++ ".mp4")) vid).mkdirp
      (pjoin TEMP_ROOT sid) = none) :
    upload_video fs sid vid ad =
      (⟨fs.write (pjoin UPLOADS_DIR (sid ++ ".mp4")) vid,
          [resolve (pjoin UPLOADS_DIR (sid ++ ".mp4"))]⟩,
        .error ⟨500, "OSError"⟩) := by
  simp only [upload_video, PSt.write, List.nil_append]
  split
  · rfl
  · rename_i fs2a heq
    rw [hmk] at heq
    exact Option.noConfusion heq

/-- Claim C7: when the adapter is available, the upload succeeded and the
session folder was created, a pipeline-level fatal error during ingestion
surfaces as the generic 500 "Processing failed" response, and in the
resulting filesystem no file and no directory lies under the temporary
session subtree: the whole partial session has been removed before the
failure is returned. -/
theorem C7_fatal_cleanup (fs : FS) (sid vid : String) (ad : Adapter) (e : HErr)
    (hsid : plainSeg sid = true) (hav : ad.available = true)
    (hmk : ((fs.write (pjoin UPLOADS_DIR (sid ++ ".mp4")) vid).mkdirp
      (pjoin TEMP_ROOT sid)).isSome = true)
    (hres : (upload_video fs sid vid ad).2 = .error e) :
    e = ⟨500, "Processing failed"⟩ ∧
    (upload_video fs sid vid ad).1.fs.files.all
      (fun en => !(TEMP_ROOT ++ [sid]).isPrefixOf en.1) = true ∧
    (upload_video fs sid vid ad).1.fs.dirs.all
      (fun d => !(TEMP_ROOT ++ [sid]).isPrefixOf d) = true := by
  obtain ⟨fs2, hmk2⟩ := Option.isSome_iff_exists.mp hmk
  rcases hrd : runDetection (pjoin TEMP_ROOT sid) sid
      ⟨fs2, [resolve (pjoin UPLOADS_DIR (sid ++ ".mp4"))]⟩ ad.mode with ⟨st3, o⟩
  cases o with
  | some m =>
    rw [upload_video_ok fs sid vid ad fs2 st3 m hmk2 hav hrd] at hres
    exact Except.noConfusion hres
  | none =>
    have hu := upload_video_fatal fs sid vid ad fs2 st3 hmk2 hav hrd
    rw [hu] at hres ⊢
    have hrw : resolve (pjoin TEMP_ROOT sid) = TEMP_ROOT ++ [sid] := by
      rw [plain_pjoin TEMP_ROOT sid hsid]
      exact resolve_temp1 sid hsid
    refine ⟨?_, ?_, ?_⟩
    · have hres2 : (Except.error ⟨500, "Processing failed"⟩ :
          Except HErr (String × PersonMap)) = .error e := hres
      injection hres2 with h
      exact h.symm
    · show (st3.fs.rmtree (pjoin TEMP_ROOT sid)).files.all
        (fun en => !(TEMP_ROOT ++ [sid]).isPrefixOf en.1) = true
      have h2 := rmtree_files_all st3.fs (pjoin TEMP_ROOT sid)
      rw [hrw] at h2
      exact h2
    · show (st3.fs.rmtree (pjoin TEMP_ROOT sid)).dirs.all
        (fun d => !(TEMP_ROOT ++ [sid]).isPrefixOf d) = true
      have h2 := rmtree_dirs_all st3.fs (pjoin TEMP_ROOT sid)
      rw [hrw] at h2
      exact h2

theorem C7_fatal_cleanup_witness :
    plainSeg "s9" = true ∧
    (Adapter.mk true (AdMode.tracking [TItem.fatal])).available = true ∧
    ((fsDemo.write (pjoin UPLOADS_DIR ("s9" ++ ".mp4")) "V").mkdirp
      (pjoin TEMP_ROOT "s9")).isSome = true ∧
    (upload_video fsDemo "s9" "V" ⟨true, AdMode.tracking [TItem.fatal]⟩).2 =
      .error ⟨500, "Processing failed"⟩ ∧
    (upload_video fsDemo "s9" "V" ⟨true, AdMode.tracking [TItem.fatal]⟩).1.fs.files.all
      (fun en => !(TEMP_ROOT ++ ["s9"]).isPrefixOf en.1) = true ∧
    (upload_video fsDemo "s9" "V" ⟨true, AdMode.tracking [TItem.fatal]⟩).1.fs.dirs.all
      (fun d => !(TEMP_ROOT ++ ["s9"]).isPrefixOf d) = true := by
  have h := C7_fatal_cleanup fsDemo "s9" "V" ⟨true, AdMode.tracking [TItem.fatal]⟩
    ⟨500, "Processing failed"⟩ (by decide) (by decide) (by decide) (by decide)
  exact ⟨by decide, by decide, by decide, by decide, h.2.1, h.2.2⟩

/-- Claim C8 counterexample: with the detection adapter unavailable the
ingestion succeeds (session id with an empty person map), yet no session
snapshot is written at all — the write log records zero writes of
`annotation.json`, and the file does not exist afterwards.  "On every
successful ingestion the pipeline persists the session snapshot exactly
once" is therefore false as stated. -/
theorem C8_no_snapshot_counterexample :
    (upload_video fsDemo "s9" "V" ⟨false, AdMode.tracking []⟩).2 = .ok ("s9", []) ∧
    (upload_video fsDemo "s9" "V" ⟨false, AdMode.tracking []⟩).1.fs.file?
      (TEMP_ROOT ++ ["s9", "annotation.json"]) = none ∧
    (upload_video fsDemo "s9" "V" ⟨false, AdMode.tracking []⟩).1.log.count
      (TEMP_ROOT ++ ["s9", "annotation.json"]) = 0 := by decide

/-- Claim C8 (amended): if the adapter is unavailable, ingestion still
succeeds and returns the session id with an empty person map (without
writing a snapshot); if the adapter is available, every successful
ingestion writes the session snapshot `annotation.json` exactly once, and
afterwards the snapshot file holds the serialization of the returned
person map. -/
theorem C8_ingestion_snapshot (fs : FS) (sid vid : String) (ad : Adapter)
    (hsid : plainSeg sid = true) :
    (ad.available = false →
      ∀ fs2, (fs.write (pjoin UPLOADS_DIR (sid ++ ".mp4")) vid).mkdirp
          (pjoin TEMP_ROOT sid) = some fs2 →
      (upload_video fs sid vid ad).2 = .ok (sid, [])) ∧
    (∀ (st : PSt) (r : String × PersonMap), ad.available = true →
      upload_video fs sid vid ad = (st, .ok r) →
      st.log.count (TEMP_ROOT ++ [sid, "annotation.json"]) = 1 ∧
      st.fs.file? (TEMP_ROOT ++ [sid, "annotation.json"]) = some (jsonDumpMap r.2)) := by
  have hann : resolve (pjoin (pjoin TEMP_ROOT sid) "annotation.json") =
      TEMP_ROOT ++ [sid, "annotation.json"] := by
    rw [plain_pjoin TEMP_ROOT sid hsid,
      plain_pjoin _ _ (show plainSeg "annotation.json" = true by decide)]
    show resolve (TEMP_ROOT ++ [sid, "annotation.json"]) = _
    exact resolve_temp2 sid "annotation.json" hsid (by decide)
  have hsp : plainSeg (sid ++ "_summary.json") = true :=
    plain_suffix sid "_summary.json" hsid (by decide) (by decide)
  have hsum : resolve (pjoin ANNOTATIONS_DIR (sid ++ "_summary.json")) =
      ANNOTATIONS_DIR ++ [sid ++ "_summary.json"] := by
    rw [plain_pjoin _ _ hsp]
    apply resolve_fixed_plain ANNOTATIONS_DIR [sid ++ "_summary.json"] (by decide)
    intro x hx
    rw [List.mem_singleton] at hx
    subst hx
    exact hsp
  have hsumne : ANNOTATIONS_DIR ++ [sid ++ "_summary.json"] ≠
      TEMP_ROOT ++ [sid, "annotation.json"] :=
    ne_of_listlen _ _ (by
      simp only [ANNOTATIONS_DIR, TEMP_ROOT, List.length_append, List.length_cons,
        List.length_nil]
      omega)
  have hupp : plainSeg (sid ++ ".mp4") = true :=
    plain_suffix sid ".mp4" hsid (by decide) (by decide)
  have hup : resolve (pjoin UPLOADS_DIR (sid ++ ".mp4")) =
      UPLOADS_DIR ++ [sid ++ ".mp4"] := by
    rw [plain_pjoin _ _ hupp]
    apply resolve_fixed_plain UPLOADS_DIR [sid ++ ".mp4"] (by decide)
    intro x hx
    rw [List.mem_singleton] at hx
    subst hx
    exact hupp
  constructor
  · intro hav fs2 hmk
    rw [upload_video_unavail fs sid vid ad fs2 hmk hav]
  · intro st r hav heq
    cases hmk : (fs.write (pjoin UPLOADS_DIR (sid ++ ".mp4")) vid).mkdirp
        (pjoin TEMP_ROOT sid) with
    | none =>
      rw [upload_video_oserr fs sid vid ad hmk] at heq
      injection heq with h1 h2
      exact Except.noConfusion h2
    | some fs2 =>
      rcases hrd : runDetection (pjoin TEMP_ROOT sid) sid
          ⟨fs2, [resolve (pjoin UPLOADS_DIR (sid ++ ".mp4"))]⟩ ad.mode with ⟨st3, o⟩
      cases o with
      | none =>
        rw [upload_video_fatal fs sid vid ad fs2 st3 hmk hav hrd] at heq
        injection heq with h1 h2
        exact Except.noConfusion h2
      | some m =>
        rw [upload_video_ok fs sid vid ad fs2 st3 m hmk hav hrd] at heq
        injection heq with h1 h2
        injection h2 with h3
        subst h3
        subst h1
        have hc := runDetection_count sid sid hsid
          ⟨fs2, [resolve (pjoin UPLOADS_DIR (sid ++ ".mp4"))]⟩ ad.mode
        rw [plain_pjoin TEMP_ROOT sid hsid] at hrd
        rw [hrd] at hc
        have h0 : ([resolve (pjoin UPLOADS_DIR (sid ++ ".mp4"))] : List PathSegs).count
            (TEMP_ROOT ++ [sid, "annotation.json"]) = 0 := by
          rw [List.count_eq_zero]
          intro hm
          rw [List.mem_singleton, hup] at hm
          exact ne_of_listlen _ _ (by
            simp only [UPLOADS_DIR, TEMP_ROOT, List.length_append, List.length_cons,
              List.length_nil]
            omega) hm.symm
        have hc2 : st3.log.count (TEMP_ROOT ++ [sid, "annotation.json"]) =
            ([resolve (pjoin UPLOADS_DIR (sid ++ ".mp4"))] : List PathSegs).count
              (TEMP_ROOT ++ [sid, "annotation.json"]) := hc
        rw [h0] at hc2
        constructor
        · rw [pst_write_log, pst_write_log, hann, hsum,
            count_snoc_ne _ _ _ hsumne, count_snoc_eq, hc2]
        · rw [pst_write_fs, pst_write_fs]
          have hne2 : (TEMP_ROOT ++ [sid, "annotation.json"]) ≠
              resolve (pjoin ANNOTATIONS_DIR (sid ++ "_summary.json")) := by
            rw [hsum]
            exact (hsumne).symm
          rw [write_file_ne _ _ _ _ hne2]
          have hws := write_file_self st3.fs
            (pjoin (pjoin TEMP_ROOT sid) "annotation.json") (jsonDumpMap m)
          rw [hann] at hws
          exact hws

theorem C8_ingestion_snapshot_witness :
    plainSeg "s9" = true ∧
    (upload_video fsDemo "s9" "V" ⟨false, AdMode.tracking []⟩).2 = .ok ("s9", []) ∧
    (upload_video fsDemo "s9" "V" ⟨true, AdMode.tracking []⟩).1.log.count
      (TEMP_ROOT ++ ["s9", "annotation.json"]) = 1 ∧
    (upload_video fsDemo "s9" "V" ⟨true, AdMode.tracking []⟩).1.fs.file?
      (TEMP_ROOT ++ ["s9", "annotation.json"]) = some (jsonDumpMap []) := by
  refine ⟨by decide, ?_, ?_, ?_⟩
  · obtain ⟨fs2, hmk⟩ := Option.isSome_iff_exists.mp
      (show ((fsDemo.write (pjoin UPLOADS_DIR ("s9" ++ ".mp4")) "V").mkdirp
        (pjoin TEMP_ROOT "s9")).isSome = true by decide)
    exact (C8_ingestion_snapshot fsDemo "s9" "V" ⟨false, AdMode.tracking []⟩
      (by decide)).1 rfl fs2 hmk
  · exact ((C8_ingestion_snapshot fsDemo "s9" "V" ⟨true, AdMode.tracking []⟩ (by decide)).2
      (upload_video fsDemo "s9" "V" ⟨true, AdMode.tracking []⟩).1 ("s9", []) rfl
      (by decide)).1
  · exact ((C8_ingestion_snapshot fsDemo "s9" "V" ⟨true, AdMode.tracking []⟩ (by decide)).2
      (upload_video fsDemo "s9" "V" ⟨true, AdMode.tracking []⟩).1 ("s9", []) rfl
      (by decide)).2
